import Mathlib

/-!
Verification of the word-rarity-classifier engine against its specification.

Each Python component under `src/classificator` that the checked claims touch
is embedded shallowly as executable Lean definitions:

* `src/classificator/fuzzy_word_matcher.py`  → `Classificator.normalize`,
  `Classificator.levenshtein`, `Classificator.fuzzyMatches`
* `src/classificator/json_repair.py`         → `Classificator.repair`
* `src/classificator/batch_size_adapter.py`  → `Classificator.BatchSizeAdapter`
* `src/classificator/run_csv_repository.py`  → `Classificator.mergeAndRewriteAtomic`
* `src/classificator/lm/response_parser.py`  → `Classificator.parseSelectedWordIds`
* `src/classificator/lm/client.py`           → `Classificator.scoreBatchResilient`
* `src/classificator/steps/step5_rebalance.py` → `Classificator.computeAdaptiveTargetCount`

Python `int` is modelled as `ℤ` (or `ℕ` for values that are provably sizes),
Python `float` arithmetic on the small controller quantities as `ℚ` with
Python's banker's rounding modelled by `pyRound`, and raising an exception as
returning an `Except`/`Bool` error value.
-/

set_option maxHeartbeats 1000000

namespace Classificator

/-! ### Fuzzy word matcher (`fuzzy_word_matcher.py`) -/

/-- Mirrors `MAX_EDIT_DISTANCE = 2`. -/
def maxEditDistance : Nat := 2

/-- Mirrors `DIACRITICS_MAP`: the Romanian diacritic letters are mapped to
their ASCII base letter, preserving case; every other character is kept. -/
def foldDiacritic (c : Char) : Char :=
  match c with
  | 'ă' => 'a'
  | 'Ă' => 'A'
  | 'â' => 'a'
  | 'Â' => 'A'
  | 'î' => 'i'
  | 'Î' => 'I'
  | 'ș' => 's'
  | 'Ș' => 'S'
  | 'ț' => 't'
  | 'Ț' => 'T'
  | 'ş' => 's'
  | 'Ş' => 'S'
  | 'ţ' => 't'
  | 'Ţ' => 'T'
  | _ => c

/-- Mirrors `normalize(text) = text.translate(DIACRITICS_MAP).lower()`.
Lowercasing is modelled on ASCII letters (`Char.toLower`); after the
diacritics map every character this program feeds through `normalize`
is ASCII, where Python's `str.lower` agrees with `Char.toLower`. -/
def normalize (s : String) : String :=
  String.mk (s.data.map (fun c => (foldDiacritic c).toLower))

/-- Mirrors the inner `for j, ch_b in enumerate(b, start=1)` loop of
`levenshtein`: given the previous DP row (as the list `p0 :: p1 :: ps`,
where `p0` is the diagonal entry) and the value `left` just computed to
the left, produces the rest of the current row. -/
def levRow (c : Char) : List Char → List Nat → Nat → List Nat
  | [], _, _ => []
  | b :: bs, p0 :: p1 :: ps, left =>
      let cost := if c = b then 0 else 1
      let v := min (left + 1) (min (p1 + 1) (p0 + cost))
      v :: levRow c bs (p1 :: ps) v
  | _ :: _, _, _ => []

/-- Mirrors `levenshtein(a, b)`: early returns for equal/empty strings,
then the row-by-row dynamic program. -/
def levenshtein (a b : String) : Nat :=
  if a = b then 0
  else if a.length = 0 then b.length
  else if b.length = 0 then a.length
  else
    let bs := b.data
    let init := List.range (bs.length + 1)
    let final := (a.data.foldl (fun st c =>
      let i := st.1 + 1
      (i, i :: levRow c bs st.2 i)) ((0 : Nat), init)).2
    final.getLastD 0

/-- Mirrors `fuzzyMatches(expected, actual)`: exact equality, then equality of
the diacritic-folded lowercase forms, then the length-difference guard,
then the edit-distance bound. -/
def fuzzyMatches (expected actual : String) : Bool :=
  if expected = actual then true
  else
    let ne := normalize expected
    let na := normalize actual
    if ne = na then true
    else if ((ne.length : ℤ) - (na.length : ℤ)).natAbs > maxEditDistance then false
    else decide (levenshtein ne na ≤ maxEditDistance)

/-- C9: `fuzzyMatches(a, b)` is true exactly when `a = b`, or the
diacritic-folded lowercase forms are equal, or those forms differ in
length by at most 2 and have Levenshtein distance at most 2 (inclusive
at distance 2, exclusive at 3); moreover `fuzzyMatches "măr" "mar" = true`
and `fuzzyMatches "pâine" "xyz" = false`. -/
theorem c9_matches_characterization :
    (∀ a b : String, fuzzyMatches a b = true ↔
      (a = b ∨ normalize a = normalize b ∨
        ((((normalize a).length : ℤ) - ((normalize b).length : ℤ)).natAbs ≤ 2 ∧
          levenshtein (normalize a) (normalize b) ≤ 2))) ∧
    fuzzyMatches "măr" "mar" = true ∧
    fuzzyMatches "pâine" "xyz" = false := by
  refine ⟨?_, by decide, by decide⟩
  intro a b
  by_cases h1 : a = b
  · simp [fuzzyMatches, h1]
  · by_cases h2 : normalize a = normalize b
    · simp [fuzzyMatches, h1, h2]
    · by_cases h3 :
        (((normalize a).length : ℤ) - ((normalize b).length : ℤ)).natAbs > 2
      · have hm : fuzzyMatches a b = false := by
          simp [fuzzyMatches, h1, h2, maxEditDistance, h3]
        rw [hm]
        simp only [Bool.false_eq_true, false_iff]
        push_neg
        exact ⟨h1, h2, fun hd => absurd h3 (by omega)⟩
      · have hm : fuzzyMatches a b =
            decide (levenshtein (normalize a) (normalize b) ≤ 2) := by
          simp [fuzzyMatches, h1, h2, maxEditDistance, h3]
        rw [hm]
        simp only [decide_eq_true_eq]
        constructor
        · intro h
          exact Or.inr (Or.inr ⟨by omega, h⟩)
        · rintro (h | h | ⟨hd, hl⟩)
          · exact absurd h h1
          · exact absurd h h2
          · exact hl

/-! ### JSON repair (`json_repair.py`)

Each of the four quote-aware passes is a character scanner carrying the
`in_string` / `escaped` state of the Python original; the accumulator `out`
is kept most-recent-first and reversed at the end, so Python's
`out[-1]` is the accumulator's head. -/

/-- Helper for one step of the shared quote/escape automaton inside a string
literal: given the current `escaped` flag and character, returns the
`(inString, escaped)` state after Python's
`if escaped: escaped=False / elif ch=="\\": escaped=True / elif ch=='"': in_string=False`. -/
def stringStateStep (escaped : Bool) (c : Char) : Bool × Bool :=
  if escaped then (true, false)
  else if c = '\\' then (true, true)
  else if c = '"' then (false, false)
  else (true, false)

/-- Mirrors `_remove_line_comments`: outside strings, `//` starts a comment
that is dropped up to (not including) the next newline, after popping the
spaces accumulated immediately before it; if there is no newline the scan
stops (`break`). Python's index jump `i = input_text.find("\n", i)` is
modelled by the `inComment` flag: while it is set, characters are dropped
until the newline, which is then processed by the ordinary outside-string
branch (appending it), exactly as the original loop does at index `j`. -/
def removeLineCommentsGo : List Char → Bool → Bool → Bool → List Char → List Char
  | [], _, _, _, out => out.reverse
  | c :: rest, inComment, inString, escaped, out =>
    if inComment then
      if c = '\n' then removeLineCommentsGo rest false false false (c :: out)
      else removeLineCommentsGo rest true inString escaped out
    else if inString then
      let st := stringStateStep escaped c
      removeLineCommentsGo rest false st.1 st.2 (c :: out)
    else if c = '"' then
      removeLineCommentsGo rest false true false (c :: out)
    else if c = '/' ∧ rest.head? = some '/' then
      removeLineCommentsGo rest true inString escaped (out.dropWhile (fun ch => ch = ' '))
    else
      removeLineCommentsGo rest false inString escaped (c :: out)

def removeLineComments (l : List Char) : List Char :=
  removeLineCommentsGo l false false false []

/-- Mirrors `_fix_trailing_decimal_points`: outside strings, a `.` preceded
by a digit and not followed by a digit is replaced by `.0`. The previous
raw input character is threaded as `prev`. -/
def fixTrailingDecimalsGo : List Char → Bool → Bool → Option Char → List Char → List Char
  | [], _, _, _, out => out.reverse
  | c :: rest, inString, escaped, prev, out =>
    if inString then
      let st := stringStateStep escaped c
      fixTrailingDecimalsGo rest st.1 st.2 (some c) (c :: out)
    else if c = '"' then
      fixTrailingDecimalsGo rest true false (some c) (c :: out)
    else if c = '.' ∧ (prev.map Char.isDigit).getD false = true ∧
        ((rest.head?.map Char.isDigit).getD false = false) then
      fixTrailingDecimalsGo rest inString escaped (some c) ('0' :: '.' :: out)
    else
      fixTrailingDecimalsGo rest inString escaped (some c) (c :: out)

def fixTrailingDecimals (l : List Char) : List Char :=
  fixTrailingDecimalsGo l false false none []

/-- Mirrors the scanning loop of `_close_unclosed_structures`: returns the
final bracket/quote stack, most recently opened first (Python's
`stack[-1]` is the head here). -/
def closeScan : List Char → Bool → Bool → List Char → List Char
  | [], _, _, stack => stack
  | c :: rest, inString, escaped, stack =>
    if inString then
      if escaped then closeScan rest true false stack
      else if c = '\\' then closeScan rest true true stack
      else if c = '"' then
        let stack2 := if stack.head? = some '"' then stack.tail else stack
        closeScan rest false false stack2
      else closeScan rest true false stack
    else if c = '"' then closeScan rest true false ('"' :: stack)
    else if c = '\x7b' then closeScan rest false false ('\x7b' :: stack)
    else if c = '[' then closeScan rest false false ('[' :: stack)
    else if c = '\x7d' ∧ stack.head? = some '\x7b' then closeScan rest false false stack.tail
    else if c = ']' ∧ stack.head? = some '[' then closeScan rest false false stack.tail
    else closeScan rest false false stack

/-- Mirrors `closers = {"{": "}", "[": "]", '"': '"'}`. -/
def closerOf (c : Char) : Char :=
  if c = '\x7b' then '\x7d' else if c = '[' then ']' else '"'

/-- Mirrors `_close_unclosed_structures`: the input followed by one closer
per entry of the remaining stack, innermost first. -/
def closeUnclosedStructures (l : List Char) : List Char :=
  l ++ (closeScan l false false []).map closerOf

/-- Mirrors `_remove_trailing_commas`: a comma outside a string becomes
pending; pending whitespace is skipped; a pending comma is dropped before a
closing bracket and re-emitted before anything else. -/
def removeTrailingCommasGo : List Char → Bool → Bool → Bool → List Char → List Char
  | [], _, _, pending, out => (if pending then ',' :: out else out).reverse
  | c :: rest, inString, escaped, pending, out =>
    if inString then
      let out2 := c :: (if pending then ',' :: out else out)
      let st := stringStateStep escaped c
      removeTrailingCommasGo rest st.1 st.2 false out2
    else if c = '"' then
      removeTrailingCommasGo rest true false false (c :: (if pending then ',' :: out else out))
    else if c = ',' then
      removeTrailingCommasGo rest inString escaped true out
    else if c = ']' ∨ c = '\x7d' then
      removeTrailingCommasGo rest inString escaped false (c :: out)
    else if c.isWhitespace ∧ pending then
      removeTrailingCommasGo rest inString escaped pending out
    else
      removeTrailingCommasGo rest inString escaped false (c :: (if pending then ',' :: out else out))

def removeTrailingCommas (l : List Char) : List Char :=
  removeTrailingCommasGo l false false false []

/-- Mirrors `repair(raw)`: the four passes composed in source order. -/
def repair (s : String) : String :=
  String.mk
    (removeTrailingCommas
      (closeUnclosedStructures
        (fixTrailingDecimals
          (removeLineComments s.data))))

/-- C8: the spec states `repair(repair(x)) == repair(x)` for every string,
but the code violates this on the four-character input `"ab\`
(a quote opening a string literal whose last character is a backslash):
`_close_unclosed_structures` appends a closing quote which the dangling
escape immediately consumes, so the output still ends inside an
unterminated string and a second application appends a further quote:
`repair("ab\) = "ab\"` while `repair(repair("ab\)) = "ab\""`. -/
theorem c8_repair_not_idempotent :
    repair (repair "\"ab\\") ≠ repair "\"ab\\" ∧
    repair "\"ab\\" = "\"ab\\\"" ∧
    repair (repair "\"ab\\") = "\"ab\\\"\"" := by
  refine ⟨?_, by decide, by decide⟩
  decide

/-! ### Batch size adapter (`batch_size_adapter.py`) -/

/-- Mirrors the mutable state of `BatchSizeAdapter`. -/
structure BatchSizeAdapter where
  initialSize : ℕ
  minSize : ℕ
  windowSize : ℕ
  currentSize : ℕ
  outcomes : List Bool
  deriving DecidableEq, Repr

/-- Mirrors `BatchSizeAdapter.__init__` (after its validations
`initial_size >= min_size`, `min_size >= 1`, `window_size >= 1`):
`current_size = initial_size`, empty outcome window. -/
def mkBatchSizeAdapter (initialSize minSize windowSize : ℕ) : BatchSizeAdapter :=
  ⟨initialSize, minSize, windowSize, initialSize, []⟩

/-- Mirrors `success_rate`. -/
def successRate (a : BatchSizeAdapter) : ℚ :=
  if a.outcomes = [] then 1
  else (a.outcomes.count true : ℚ) / (a.outcomes.length : ℚ)

/-- Mirrors `_adjust_size` (Python `//` is `Nat` floor division). -/
def adjustSize (a : BatchSizeAdapter) : BatchSizeAdapter :=
  let rate := successRate a
  if rate < 1/2 then { a with currentSize := max a.minSize (a.currentSize * 2 / 3) }
  else if 9/10 < rate then { a with currentSize := min a.initialSize (a.currentSize * 3 / 2) }
  else a

/-- Mirrors `record_outcome`: clamp the ratio to `[0,1]`, classify success
at `>= 0.9`, push, trim the window from the left, adjust the size. -/
def recordOutcome (a : BatchSizeAdapter) (successRatio : ℚ) : BatchSizeAdapter :=
  let normalized := max 0 (min 1 successRatio)
  let success := decide ((9 : ℚ)/10 ≤ normalized)
  let pushed := a.outcomes ++ [success]
  let trimmed := pushed.drop (pushed.length - a.windowSize)
  adjustSize { a with outcomes := trimmed }

/-- The adapter bound invariant, preserved by one `record_outcome` call. -/
theorem adjustSize_bounds (a : BatchSizeAdapter)
    (hmi : a.minSize ≤ a.initialSize)
    (h1 : a.minSize ≤ a.currentSize) (h2 : a.currentSize ≤ a.initialSize) :
    a.minSize ≤ (adjustSize a).currentSize ∧
      (adjustSize a).currentSize ≤ a.initialSize := by
  unfold adjustSize
  dsimp only
  split_ifs <;> first
    | (dsimp only; omega)
    | omega

theorem recordOutcome_bounds (a : BatchSizeAdapter) (r : ℚ)
    (hmi : a.minSize ≤ a.initialSize)
    (h1 : a.minSize ≤ a.currentSize) (h2 : a.currentSize ≤ a.initialSize) :
    a.minSize ≤ (recordOutcome a r).currentSize ∧
      (recordOutcome a r).currentSize ≤ a.initialSize := by
  unfold recordOutcome adjustSize
  dsimp only
  split_ifs <;> (dsimp only; omega)

theorem recordOutcome_fields (a : BatchSizeAdapter) (r : ℚ) :
    (recordOutcome a r).initialSize = a.initialSize ∧
      (recordOutcome a r).minSize = a.minSize := by
  unfold recordOutcome adjustSize
  dsimp only
  split_ifs <;> simp

theorem foldl_recordOutcome_bounds (ratios : List ℚ) (a : BatchSizeAdapter)
    (hmi : a.minSize ≤ a.initialSize)
    (h1 : a.minSize ≤ a.currentSize) (h2 : a.currentSize ≤ a.initialSize) :
    a.minSize ≤ (ratios.foldl recordOutcome a).currentSize ∧
      (ratios.foldl recordOutcome a).currentSize ≤ a.initialSize ∧
      (ratios.foldl recordOutcome a).initialSize = a.initialSize ∧
      (ratios.foldl recordOutcome a).minSize = a.minSize := by
  induction ratios generalizing a with
  | nil => exact ⟨h1, h2, rfl, rfl⟩
  | cons r rest ih =>
      have hb := recordOutcome_bounds a r hmi h1 h2
      have hf := recordOutcome_fields a r
      have := ih (recordOutcome a r) (by rw [hf.1, hf.2]; exact hmi)
        (by rw [hf.2]; exact hb.1) (by rw [hf.1]; exact hb.2)
      simpa [hf.1, hf.2] using this

/-- C7: over every sequence of recorded outcomes the recommended size stays
within `[min_size, initial_size]` (given the constructor-validated
`min_size <= initial_size`), and each `record_outcome` call rewrites the
size by exactly the windowed-rate rule: rate < 0.5 shrinks to
`max(min_size, size*2//3)`, rate > 0.9 grows to
`min(initial_size, size*3//2)`, anything else leaves it unchanged. -/
theorem c7_adapter_size_bounds :
    (∀ (initialSize minSize windowSize : ℕ) (ratios : List ℚ),
        minSize ≤ initialSize →
        minSize ≤
            (ratios.foldl recordOutcome
              (mkBatchSizeAdapter initialSize minSize windowSize)).currentSize ∧
          (ratios.foldl recordOutcome
              (mkBatchSizeAdapter initialSize minSize windowSize)).currentSize ≤
            initialSize) ∧
    (∀ (a : BatchSizeAdapter) (r : ℚ),
        (recordOutcome a r).currentSize =
          (let success := decide ((9 : ℚ)/10 ≤ max 0 (min 1 r))
           let pushed := a.outcomes ++ [success]
           let windowed := pushed.drop (pushed.length - a.windowSize)
           let rate := successRate { a with outcomes := windowed }
           if rate < 1/2 then max a.minSize (a.currentSize * 2 / 3)
           else if 9/10 < rate then min a.initialSize (a.currentSize * 3 / 2)
           else a.currentSize)) := by
  constructor
  · intro initialSize minSize windowSize ratios hmi
    have := foldl_recordOutcome_bounds ratios
      (mkBatchSizeAdapter initialSize minSize windowSize) hmi hmi le_rfl
    exact ⟨this.1, this.2.1⟩
  · intro a r
    unfold recordOutcome adjustSize
    dsimp only
    split_ifs <;> rfl

/-- Witness for C7 at a concrete instance: initial 10, minimum 3,
window 10, four recorded outcomes. -/
theorem c7_adapter_size_bounds_witness :
    3 ≤ ([(1 : ℚ), 0, 0, 1/2].foldl recordOutcome (mkBatchSizeAdapter 10 3 10)).currentSize ∧
      ([(1 : ℚ), 0, 0, 1/2].foldl recordOutcome (mkBatchSizeAdapter 10 3 10)).currentSize ≤ 10 :=
  c7_adapter_size_bounds.1 10 3 10 [(1 : ℚ), 0, 0, 1/2] (by decide)

/-! ### Python rounding

`round` in Python 3 rounds half to even (banker's rounding). The controller
quantities it is applied to here (`expected * left_size / total_size`,
`processed * lower_ratio`) are modelled as exact rationals. -/

/-- Models Python's built-in `round` on an exact rational value:
round half to even. -/
def pyRound (x : ℚ) : ℤ :=
  let f := ⌊x⌋
  let r := x - (f : ℚ)
  if r < 1/2 then f
  else if 1/2 < r then f + 1
  else if 2 ∣ f then f else f + 1

theorem pyRound_intCast (n : ℤ) : pyRound (n : ℚ) = n := by
  unfold pyRound
  rw [Int.floor_intCast]
  norm_num

/-- Evaluation rule for `pyRound` once the floor is known. -/
theorem pyRound_eq (x : ℚ) (f : ℤ) (hf : ⌊x⌋ = f) :
    pyRound x = if x - f < 1/2 then f else if 1/2 < x - f then f + 1
      else if 2 ∣ f then f else f + 1 := by
  unfold pyRound
  rw [hf]

theorem pyRound_le_half (x : ℚ) : (pyRound x : ℚ) ≤ x + 1/2 := by
  have hf := Int.floor_le x
  unfold pyRound
  dsimp only
  split_ifs with h1 h2 h3 <;> push_cast <;> linarith

theorem half_le_pyRound (x : ℚ) : x - 1/2 ≤ (pyRound x : ℚ) := by
  have hf := Int.lt_floor_add_one x
  unfold pyRound
  dsimp only
  split_ifs with h1 h2 h3 <;> push_cast <;> linarith

theorem floor_le_pyRound (x : ℚ) : ⌊x⌋ ≤ pyRound x := by
  unfold pyRound
  dsimp only
  split_ifs <;> omega

theorem pyRound_le_floor_add_one (x : ℚ) : pyRound x ≤ ⌊x⌋ + 1 := by
  unfold pyRound
  dsimp only
  split_ifs <;> omega

theorem pyRound_mono {x y : ℚ} (h : x ≤ y) : pyRound x ≤ pyRound y := by
  rcases lt_or_eq_of_le (Int.floor_le_floor h) with hf | hf
  · calc pyRound x ≤ ⌊x⌋ + 1 := pyRound_le_floor_add_one x
      _ ≤ ⌊y⌋ := by omega
      _ ≤ pyRound y := floor_le_pyRound y
  · unfold pyRound
    dsimp only
    rw [hf]
    split_ifs <;> first | omega | linarith

theorem pyRound_nonneg {x : ℚ} (h : 0 ≤ x) : 0 ≤ pyRound x := by
  have := pyRound_mono (show ((0 : ℤ) : ℚ) ≤ x by exact_mod_cast h)
  rwa [pyRound_intCast] at this

/-- Key step bound: moving the argument up by strictly less than one unit
raises the banker-rounded value by at most one. At exactly one unit the bound
can fail (`round(0.5)=0`, `round(1.5)=2`), which is why the rebalance lemmas
treat `ratio = 1` separately. -/
theorem pyRound_step {x y : ℚ} (hxy : y - x < 1) : pyRound y ≤ pyRound x + 1 := by
  have h1 := pyRound_le_half y
  have h2 := half_le_pyRound x
  have hq : (pyRound y : ℚ) < (pyRound x : ℚ) + 2 := by linarith
  have hz : pyRound y < pyRound x + 2 := by exact_mod_cast hq
  omega

/-! ### Bisection apportioning (`lm/client.py::_compute_split_expected`) -/

/-- Mirrors `_compute_split_expected(total_expected, left_size, total_size)`.
Sizes are list lengths, hence `ℕ`; `int(round(raw))` on the float division
is modelled by `pyRound` on the exact rational. -/
def computeSplitExpected (totalExpected : ℤ) (leftSize totalSize : ℕ) : ℤ :=
  if totalExpected ≤ 0 ∨ leftSize = 0 ∨ totalSize = 0 then 0
  else if totalSize ≤ leftSize then totalExpected
  else pyRound ((totalExpected : ℚ) * (leftSize : ℚ) / (totalSize : ℚ))

/-- C4: when the resilient scorer bisects a selection-mode batch of size `n`
at its midpoint (`left = n / 2`) with total expected count `E`,
`0 < E < n`, the left half receives `round(E * left / n)`, the right half
the remainder `E - left_expected` (so the two always sum to `E`), and each
half's count lies between 0 and that half's size. -/
theorem c4_split_expected (E : ℤ) (n : ℕ) (hE : 0 < E) (hEn : E < (n : ℤ)) :
    computeSplitExpected E (n / 2) n = pyRound ((E : ℚ) * ((n / 2 : ℕ) : ℚ) / (n : ℚ)) ∧
    computeSplitExpected E (n / 2) n + (E - computeSplitExpected E (n / 2) n) = E ∧
    0 ≤ computeSplitExpected E (n / 2) n ∧
    computeSplitExpected E (n / 2) n ≤ ((n / 2 : ℕ) : ℤ) ∧
    0 ≤ E - computeSplitExpected E (n / 2) n ∧
    E - computeSplitExpected E (n / 2) n ≤ ((n - n / 2 : ℕ) : ℤ) := by
  have hn2 : 2 ≤ n := by omega
  obtain ⟨ls, hls, hls1, hlsn⟩ : ∃ ls, n / 2 = ls ∧ 1 ≤ ls ∧ ls < n :=
    ⟨n / 2, rfl, by omega, by omega⟩
  rw [hls]
  have heq : computeSplitExpected E ls n =
      pyRound ((E : ℚ) * (ls : ℚ) / (n : ℚ)) := by
    unfold computeSplitExpected
    rw [if_neg (by push_neg; exact ⟨by omega, by omega, by omega⟩),
        if_neg (by omega)]
  have hnq : (0 : ℚ) < (n : ℚ) := by positivity
  have hlsq : (0 : ℚ) ≤ (ls : ℚ) := by positivity
  have hEq : (0 : ℚ) < (E : ℚ) := by exact_mod_cast hE
  have hEnq : (E : ℚ) ≤ (n : ℚ) := by
    have h : E ≤ (n : ℤ) := le_of_lt hEn
    exact_mod_cast h
  have hlsnq : (ls : ℚ) ≤ (n : ℚ) := by exact_mod_cast le_of_lt hlsn
  have h0l : 0 ≤ pyRound ((E : ℚ) * (ls : ℚ) / (n : ℚ)) :=
    pyRound_nonneg (by positivity)
  have hlls : pyRound ((E : ℚ) * (ls : ℚ) / (n : ℚ)) ≤ ((ls : ℕ) : ℤ) := by
    have harg : (E : ℚ) * (ls : ℚ) / (n : ℚ) ≤ (((ls : ℕ) : ℤ) : ℚ) := by
      rw [div_le_iff₀ hnq]
      push_cast
      nlinarith [mul_le_mul_of_nonneg_right hEnq hlsq]
    have h := pyRound_mono harg
    rwa [pyRound_intCast] at h
  have hlE : pyRound ((E : ℚ) * (ls : ℚ) / (n : ℚ)) ≤ E := by
    have harg : (E : ℚ) * (ls : ℚ) / (n : ℚ) ≤ ((E : ℤ) : ℚ) := by
      rw [div_le_iff₀ hnq]
      nlinarith [mul_le_mul_of_nonneg_left hlsnq (le_of_lt hEq)]
    have h := pyRound_mono harg
    rwa [pyRound_intCast] at h
  have hrle : E - ((n - ls : ℕ) : ℤ) ≤ pyRound ((E : ℚ) * (ls : ℚ) / (n : ℚ)) := by
    have harg : (((E - ((n - ls : ℕ) : ℤ)) : ℤ) : ℚ) ≤ (E : ℚ) * (ls : ℚ) / (n : ℚ) := by
      rw [le_div_iff₀ hnq]
      push_cast [Nat.cast_sub (le_of_lt hlsn)]
      nlinarith [mul_nonneg (sub_nonneg.mpr hlsnq) (sub_nonneg.mpr hEnq)]
    have h := pyRound_mono harg
    rwa [pyRound_intCast] at h
  refine ⟨heq, by ring, ?_, ?_, ?_, ?_⟩ <;> rw [heq]
  · exact h0l
  · exact hlls
  · omega
  · omega

/-- Witness for C4 at `E = 1`, batch size `n = 3`: the left half of size 1
gets `round(1/3) = 0` and the right half of size 2 gets the remainder 1. -/
theorem c4_split_expected_witness :
    computeSplitExpected 1 (3 / 2) 3 = pyRound ((1 : ℚ) * ((3 / 2 : ℕ) : ℚ) / (3 : ℚ)) ∧
    computeSplitExpected 1 (3 / 2) 3 + (1 - computeSplitExpected 1 (3 / 2) 3) = 1 ∧
    0 ≤ computeSplitExpected 1 (3 / 2) 3 ∧
    computeSplitExpected 1 (3 / 2) 3 ≤ ((3 / 2 : ℕ) : ℤ) ∧
    0 ≤ 1 - computeSplitExpected 1 (3 / 2) 3 ∧
    1 - computeSplitExpected 1 (3 / 2) 3 ≤ ((3 - 3 / 2 : ℕ) : ℤ) :=
  c4_split_expected 1 3 (by norm_num) (by norm_num)

/-! ### Data model (`models.py`) -/

/-- Mirrors `BaseWordRow`. -/
structure BaseWordRow where
  wordId : ℤ
  word : String
  type : String
  deriving DecidableEq, Repr

/-- The selection-path confidence constant `0.9`, as an exact rational in
normal form (so that concrete runs evaluate by kernel reduction). -/
def confidence09 : ℚ := ⟨9, 10, by decide, by decide⟩

theorem confidence09_eq : confidence09 = 9/10 := by
  rw [confidence09, Rat.mk'_eq_divInt]
  norm_num [Rat.divInt_eq_div]

/-- Mirrors `ScoreResult`; `confidence` is one of the exactly-representable
constants the selection path produces, modelled in `ℚ`. -/
structure ScoreResult where
  wordId : ℤ
  word : String
  type : String
  rarityLevel : ℤ
  tag : String
  confidence : ℚ
  deriving DecidableEq, Repr

/-! ### Rebalance target accounting (`steps/step5_rebalance.py`) -/

/-- Mirrors `_compute_adaptive_target_count`: the cumulative desired count
after this batch is `round(processed_after * ratio)` clamped to
`[0, expected_total]`, and the batch target is the missing delta clamped to
`[0, batch_size]`. -/
def computeAdaptiveTargetCount (processedBeforeBatch : ℕ) (assignedBeforeBatch : ℤ)
    (batchSize : ℕ) (ratio : ℚ) (expectedTotal : ℤ) : ℤ :=
  if batchSize = 0 then 0
  else
    let processedAfter : ℕ := processedBeforeBatch + batchSize
    let desired0 : ℤ := pyRound ((processedAfter : ℚ) * ratio)
    let desired : ℤ := max 0 (min expectedTotal desired0)
    max 0 (min (batchSize : ℤ) (desired - assignedBeforeBatch))

/-- Mirrors `_select_common_word_ids`: keep, in order, the scored ids that
belong to the batch, carry the common level, and were not already seen;
raise (`Except.error`) unless exactly `common_count` remain. -/
def selectCommonWordIds (batch : List BaseWordRow) (scored : List ScoreResult)
    (commonLevel : ℤ) (commonCount : ℤ) : Except String (List ℤ) :=
  let batchIds := batch.map (fun w => w.wordId)
  let selected := scored.foldl (fun acc s =>
    if s.wordId ∈ batchIds ∧ s.rarityLevel = commonLevel ∧ s.wordId ∉ acc
    then acc ++ [s.wordId] else acc) []
  if (selected.length : ℤ) = commonCount then .ok selected else .error "contract violation"

/-- Models the `processed` / `target_assigned` counters of one committed
batch inside `_apply_transition`: `processed += len(batch)` and
`target_assigned += assigned_to_target`, where a committed batch always
contributes exactly the computed target count (`assigned_to_target`
works out to `target_count` in all four branches: the two trivial
assignments and the scored path, whose `_select_common_word_ids` raises on
any other cardinality — see `selectCommonWordIds`). -/
def rebalanceStep (ratio : ℚ) (expectedTotal : ℤ) (s : ℕ × ℤ) (b : ℕ) : ℕ × ℤ :=
  (s.1 + b, s.2 + computeAdaptiveTargetCount s.1 s.2 b ratio expectedTotal)

/-- The counters of `_apply_transition` over a whole sequence of committed
batch sizes, starting from `processed = 0`, `target_assigned = 0`. -/
def runRebalanceAccounting (ratio : ℚ) (expectedTotal : ℤ) (batches : List ℕ) : ℕ × ℤ :=
  batches.foldl (rebalanceStep ratio expectedTotal) (0, 0)

theorem pyRound_mul_succ_le (r : ℚ) (hr1 : r ≤ 1) (p : ℕ) :
    pyRound (((p : ℚ) + 1) * r) ≤ pyRound ((p : ℚ) * r) + 1 := by
  rcases lt_or_eq_of_le hr1 with h | h
  · apply pyRound_step
    have he : ((p : ℚ) + 1) * r - (p : ℚ) * r = r := by ring
    rw [he]
    exact h
  · subst h
    have h1 : ((p : ℚ) + 1) * 1 = (((p : ℕ) + 1 : ℤ) : ℚ) := by push_cast; ring
    have h2 : (p : ℚ) * 1 = (((p : ℕ) : ℤ) : ℚ) := by push_cast; ring
    rw [h1, h2, pyRound_intCast, pyRound_intCast]

theorem pyRound_mul_add_le (r : ℚ) (hr1 : r ≤ 1) (p b : ℕ) :
    pyRound (((p : ℚ) + (b : ℚ)) * r) ≤ pyRound ((p : ℚ) * r) + (b : ℤ) := by
  induction b with
  | zero => simp
  | succ b ih =>
      have h2 : ((p + b : ℕ) : ℚ) = (p : ℚ) + (b : ℚ) := by push_cast; ring
      have hstep := pyRound_mul_succ_le r hr1 (p + b)
      rw [h2] at hstep
      rw [show (((b : ℕ) + 1 : ℕ) : ℚ) = (b : ℚ) + 1 by push_cast; ring,
          show ((((b : ℕ) + 1 : ℕ)) : ℤ) = (b : ℤ) + 1 by push_cast; ring,
          show ((p : ℚ) + ((b : ℚ) + 1)) = (((p : ℚ) + (b : ℚ)) + 1) by ring]
      calc pyRound ((((p : ℚ) + (b : ℚ)) + 1) * r)
          ≤ pyRound (((p : ℚ) + (b : ℚ)) * r) + 1 := hstep
        _ ≤ pyRound ((p : ℚ) * r) + ((b : ℤ) + 1) := by omega

theorem pyRound_mul_mono (r : ℚ) (hr0 : 0 ≤ r) (p q : ℕ) (h : p ≤ q) :
    pyRound ((p : ℚ) * r) ≤ pyRound ((q : ℚ) * r) := by
  apply pyRound_mono
  have hpq : (p : ℚ) ≤ (q : ℚ) := by exact_mod_cast h
  exact mul_le_mul_of_nonneg_right hpq hr0

/-- One committed batch keeps the cumulative invariant
`target_assigned = clamp(round(processed * ratio), 0, expected_total)`. -/
theorem rebalanceStep_preserves (ratio : ℚ) (hr0 : 0 ≤ ratio) (hr1 : ratio ≤ 1)
    (E : ℤ) (hE : 0 ≤ E) (p : ℕ) (a : ℤ) (b : ℕ)
    (hinv : a = max 0 (min E (pyRound ((p : ℚ) * ratio)))) :
    a + computeAdaptiveTargetCount p a b ratio E =
      max 0 (min E (pyRound (((p + b : ℕ) : ℚ) * ratio))) := by
  by_cases hb : b = 0
  · subst hb
    have ht : computeAdaptiveTargetCount p a 0 ratio E = 0 := by
      simp [computeAdaptiveTargetCount]
    rw [ht, add_zero, Nat.add_zero]
    exact hinv
  · unfold computeAdaptiveTargetCount
    rw [if_neg hb]
    dsimp only
    have hmono := pyRound_mul_mono ratio hr0 p (p + b) (by omega)
    have hstep := pyRound_mul_add_le ratio hr1 p b
    have hcast : ((p + b : ℕ) : ℚ) = (p : ℚ) + (b : ℚ) := by push_cast; ring
    rw [hcast] at hmono ⊢
    rw [hinv]
    generalize pyRound ((p : ℚ) * ratio) = dp at *
    generalize pyRound (((p : ℚ) + (b : ℚ)) * ratio) = dn at *
    omega

theorem runRebalanceAccounting_invariant (ratio : ℚ) (hr0 : 0 ≤ ratio) (hr1 : ratio ≤ 1)
    (E : ℤ) (hE : 0 ≤ E) (batches : List ℕ) :
    (runRebalanceAccounting ratio E batches).2 =
      max 0 (min E (pyRound (((runRebalanceAccounting ratio E batches).1 : ℚ) * ratio))) := by
  suffices h : ∀ (s : ℕ × ℤ), s.2 = max 0 (min E (pyRound ((s.1 : ℚ) * ratio))) →
      (batches.foldl (rebalanceStep ratio E) s).2 =
        max 0 (min E (pyRound (((batches.foldl (rebalanceStep ratio E) s).1 : ℚ) * ratio))) by
    apply h (0, 0)
    have h0 : ((0 : ℕ) : ℚ) * ratio = ((0 : ℤ) : ℚ) := by push_cast; ring
    simp only [h0, pyRound_intCast]
    omega
  induction batches with
  | nil => intro s hs; simpa using hs
  | cons b rest ih =>
      intro s hs
      simp only [List.foldl_cons]
      apply ih
      exact rebalanceStep_preserves ratio hr0 hr1 E hE s.1 s.2 b hs

/-- C3: (1) every adaptive batch target lies between 0 and the batch size;
(2) after every committed batch the cumulative target-level assignment
equals `round(processed * lower_ratio)` clamped to `[0, expected_total]`,
hence never exceeds `expected_total = round(eligible * lower_ratio)`
(the property holds after any prefix of batches, since `batches` below is
an arbitrary list of committed batch sizes); (3) a committed batch's
scored selection has exactly the computed cardinality, otherwise
`_select_common_word_ids` raises; (4) concretely, with `lower_ratio = 1/2`
and 10 eligible words processed in two committed batches of 5, the
expected total is 5, exactly 5 words are assigned to the target level
and 5 remain at the source level. -/
theorem c3_rebalance_ratio_tracking :
    (∀ (p : ℕ) (a : ℤ) (b : ℕ) (ratio : ℚ) (E : ℤ),
        0 ≤ computeAdaptiveTargetCount p a b ratio E ∧
          computeAdaptiveTargetCount p a b ratio E ≤ (b : ℤ)) ∧
    (∀ (ratio : ℚ) (elig : ℕ) (batches : List ℕ), 0 ≤ ratio → ratio ≤ 1 →
        (runRebalanceAccounting ratio (pyRound ((elig : ℚ) * ratio)) batches).2 =
            max 0 (min (pyRound ((elig : ℚ) * ratio))
              (pyRound (((runRebalanceAccounting ratio
                  (pyRound ((elig : ℚ) * ratio)) batches).1 : ℚ) * ratio))) ∧
          (runRebalanceAccounting ratio (pyRound ((elig : ℚ) * ratio)) batches).2 ≤
            pyRound ((elig : ℚ) * ratio)) ∧
    (∀ (batch : List BaseWordRow) (scored : List ScoreResult) (lvl cnt : ℤ)
        (sel : List ℤ), selectCommonWordIds batch scored lvl cnt = .ok sel →
        (sel.length : ℤ) = cnt) ∧
    (pyRound ((10 : ℚ) * (1/2)) = 5 ∧
      (runRebalanceAccounting (1/2) 5 [5, 5]).2 = 5 ∧
      ((10 : ℤ) - (runRebalanceAccounting (1/2) 5 [5, 5]).2 = 5)) := by
  have e2 : pyRound ((5 : ℚ) / 2) = 2 := by
    rw [pyRound_eq _ 2 (by norm_num [Int.floor_eq_iff])]
    norm_num
  have e3 : pyRound ((5 : ℚ)) = 5 := by
    rw [show (5 : ℚ) = ((5 : ℤ) : ℚ) by norm_num, pyRound_intCast]
  have e1 : pyRound ((10 : ℚ) * (1/2)) = 5 := by
    rw [show (10 : ℚ) * (1/2) = ((5 : ℤ) : ℚ) by norm_num, pyRound_intCast]
  have hrun : runRebalanceAccounting (1/2) 5 [5, 5] = (10, 5) := by
    simp only [runRebalanceAccounting, List.foldl_cons, List.foldl_nil,
      rebalanceStep, computeAdaptiveTargetCount]
    norm_num [e2, e3]
  refine ⟨?_, ?_, ?_, e1, by rw [hrun], by rw [hrun]; norm_num⟩
  · intro p a b ratio E
    unfold computeAdaptiveTargetCount
    by_cases hb : b = 0
    · subst hb; simp
    · rw [if_neg hb]
      dsimp only
      omega
  · intro ratio elig batches hr0 hr1
    have hE : 0 ≤ pyRound ((elig : ℚ) * ratio) :=
      pyRound_nonneg (by positivity)
    have hinv := runRebalanceAccounting_invariant ratio hr0 hr1
      (pyRound ((elig : ℚ) * ratio)) hE batches
    exact ⟨hinv, by omega⟩
  · intro batch scored lvl cnt sel hok
    unfold selectCommonWordIds at hok
    dsimp only at hok
    split_ifs at hok with h
    cases hok
    exact h

/-- Witness for C3 at a concrete instance: `ratio = 1/2`, 10 eligible
words, committed batches of sizes 3, 4 and 3. -/
theorem c3_rebalance_ratio_tracking_witness :
    (runRebalanceAccounting (1/2) (pyRound ((10 : ℚ) * (1/2))) [3, 4, 3]).2 =
        max 0 (min (pyRound ((10 : ℚ) * (1/2)))
          (pyRound (((runRebalanceAccounting (1/2)
              (pyRound ((10 : ℚ) * (1/2))) [3, 4, 3]).1 : ℚ) * (1/2)))) ∧
      (runRebalanceAccounting (1/2) (pyRound ((10 : ℚ) * (1/2))) [3, 4, 3]).2 ≤
        pyRound ((10 : ℚ) * (1/2)) :=
  c3_rebalance_ratio_tracking.2.1 (1/2) 10 [3, 4, 3] (by norm_num) (by norm_num)

/-! ### Run table merge guard (`run_csv_repository.py`) -/

/-- Mirrors `RunCsvRow`. -/
structure RunCsvRow where
  wordId : ℤ
  word : String
  type : String
  rarityLevel : ℤ
  tag : String
  confidence : ℚ
  scoredAt : String
  model : String
  runSlug : String
  deriving DecidableEq, Repr

/-- Mirrors `RunBaseline`. -/
structure RunBaseline where
  count : ℕ
  minId : Option ℤ
  maxId : Option ℤ
  deriving DecidableEq, Repr

/-- Python-dict upsert: an existing key keeps its position and takes the new
value, a new key is appended. -/
def upsertById (rows : List RunCsvRow) (r : RunCsvRow) : List RunCsvRow :=
  if rows.any (fun x => x.wordId = r.wordId)
  then rows.map (fun x => if x.wordId = r.wordId then r else x)
  else rows ++ [r]

/-- Key order used by `sorted(..., key=lambda r: r.word_id)`. -/
def rowLe (a b : RunCsvRow) : Prop := a.wordId ≤ b.wordId

instance : DecidableRel rowLe := fun a b => inferInstanceAs (Decidable (a.wordId ≤ b.wordId))

instance : IsTotal RunCsvRow rowLe := ⟨fun a b => le_total a.wordId b.wordId⟩

instance : IsTrans RunCsvRow rowLe := ⟨fun _ _ _ hab hbc => le_trans hab hbc⟩

/-- Mirrors the merge of `merge_and_rewrite_atomic`:
`merged = {r.word_id: r for r in load_run_rows(path)}` (whose own
id-dedup keeps the last row per id), then `merged[row.word_id] = row` for
the in-memory rows, then `sorted(merged.values(), key=word_id)`. -/
def mergeRows (fileRows memRows : List RunCsvRow) : List RunCsvRow :=
  ((fileRows ++ memRows).foldl upsertById []).insertionSort rowLe

/-- Mirrors the `merged minId > baseline` test of `_assert_not_shrunk`
(`first_id` is `merged_rows[0]` when the list is non-empty). -/
def minViolation (merged : List RunCsvRow) (b : RunBaseline) : Bool :=
  match b.minId, merged.head? with
  | some m, some r => decide (m < r.wordId)
  | _, _ => false

/-- Mirrors the `merged maxId < baseline` test of `_assert_not_shrunk`
(`last_id` is `merged_rows[-1]` when the list is non-empty). -/
def maxViolation (merged : List RunCsvRow) (b : RunBaseline) : Bool :=
  match b.maxId, merged.getLast? with
  | some m, some r => decide (r.wordId < m)
  | _, _ => false

/-- Mirrors `_assert_not_shrunk` as a predicate: `true` means it raises. -/
def assertNotShrunkRaises (merged : List RunCsvRow) (b : RunBaseline) : Bool :=
  if merged.length < b.count then true
  else if minViolation merged b then true
  else maxViolation merged b

/-- Result of one `merge_and_rewrite_atomic` call on the file state. -/
structure MergeOutcome where
  fileRows : List RunCsvRow
  raised : Bool
  deriving DecidableEq, Repr

/-- Mirrors `merge_and_rewrite_atomic`: merge in memory, run
`_assert_not_shrunk`, and only when it passes rewrite the file atomically
with the merged rows; the guard runs strictly before the write, so a raise
leaves the file rows untouched. -/
def mergeAndRewriteAtomic (fileRows memRows : List RunCsvRow) (b : RunBaseline) : MergeOutcome :=
  let merged := mergeRows fileRows memRows
  if assertNotShrunkRaises merged b then ⟨fileRows, true⟩ else ⟨merged, false⟩

theorem minViolation_iff (merged : List RunCsvRow) (b : RunBaseline) :
    minViolation merged b = true ↔
      ∃ m r, b.minId = some m ∧ merged.head? = some r ∧ m < r.wordId := by
  unfold minViolation
  cases hb : b.minId <;> cases hh : merged.head? <;> simp

theorem maxViolation_iff (merged : List RunCsvRow) (b : RunBaseline) :
    maxViolation merged b = true ↔
      ∃ m r, b.maxId = some m ∧ merged.getLast? = some r ∧ r.wordId < m := by
  unfold maxViolation
  cases hb : b.maxId <;> cases hh : merged.getLast? <;> simp

theorem sorted_head_min {l : List RunCsvRow} (hs : l.Sorted rowLe) :
    ∀ r ∈ l, ∀ h ∈ l.head?, h.wordId ≤ r.wordId := by
  cases l with
  | nil => simp
  | cons a t =>
      intro r hr h hh
      simp only [List.head?_cons, Option.mem_def, Option.some.injEq] at hh
      subst hh
      rcases List.mem_cons.mp hr with rfl | hrt
      · exact le_rfl
      · exact List.rel_of_sorted_cons hs r hrt

theorem sorted_getLast_max {l : List RunCsvRow} (hs : l.Sorted rowLe) :
    ∀ r ∈ l, ∀ h ∈ l.getLast?, r.wordId ≤ h.wordId := by
  induction l with
  | nil => simp
  | cons a t ih =>
      intro r hr h hh
      cases t with
      | nil =>
          simp only [List.getLast?_singleton, Option.mem_def, Option.some.injEq] at hh
          rcases List.mem_singleton.mp (by simpa using hr) with rfl
          rw [hh]
      | cons b t2 =>
          rw [List.getLast?_cons_cons] at hh
          rcases List.mem_cons.mp hr with rfl | hrt
          · obtain ⟨hne, heq⟩ := List.mem_getLast?_eq_getLast hh
            have hmem : h ∈ b :: t2 := heq ▸ List.getLast_mem hne
            exact List.rel_of_sorted_cons hs h hmem
          · exact ih hs.of_cons r hrt h hh

/-- C5: `merge_and_rewrite_atomic` raises exactly when the freshly merged
table would have fewer rows than `baseline.count`, a head (= minimum) id
above `baseline.min_id`, or a last (= maximum) id below `baseline.max_id`;
on a raise the file rows are untouched (the guard runs before any write),
and otherwise the file becomes exactly the merged table. The last two
conjuncts justify reading head/last as minimum/maximum: the merged table is
sorted by id, so its head is `≤` and its last is `≥` every merged row's id. -/
theorem c5_merge_guard (fileRows memRows : List RunCsvRow) (b : RunBaseline) :
    ((mergeAndRewriteAtomic fileRows memRows b).raised = true ↔
      ((mergeRows fileRows memRows).length < b.count ∨
        (∃ m r, b.minId = some m ∧ (mergeRows fileRows memRows).head? = some r ∧
          m < r.wordId) ∨
        (∃ m r, b.maxId = some m ∧ (mergeRows fileRows memRows).getLast? = some r ∧
          r.wordId < m))) ∧
    ((mergeAndRewriteAtomic fileRows memRows b).raised = true →
      (mergeAndRewriteAtomic fileRows memRows b).fileRows = fileRows) ∧
    ((mergeAndRewriteAtomic fileRows memRows b).raised = false →
      (mergeAndRewriteAtomic fileRows memRows b).fileRows = mergeRows fileRows memRows) ∧
    (∀ r ∈ mergeRows fileRows memRows, ∀ h ∈ (mergeRows fileRows memRows).head?,
      h.wordId ≤ r.wordId) ∧
    (∀ r ∈ mergeRows fileRows memRows, ∀ h ∈ (mergeRows fileRows memRows).getLast?,
      r.wordId ≤ h.wordId) := by
  have hsorted : (mergeRows fileRows memRows).Sorted rowLe :=
    List.sorted_insertionSort rowLe _
  have hguard : assertNotShrunkRaises (mergeRows fileRows memRows) b = true ↔
      ((mergeRows fileRows memRows).length < b.count ∨
        (∃ m r, b.minId = some m ∧ (mergeRows fileRows memRows).head? = some r ∧
          m < r.wordId) ∨
        (∃ m r, b.maxId = some m ∧ (mergeRows fileRows memRows).getLast? = some r ∧
          r.wordId < m)) := by
    unfold assertNotShrunkRaises
    rw [← minViolation_iff, ← maxViolation_iff]
    split_ifs with h1 h2
    · simp [h1]
    · simp [h2]
    · simp only [Bool.not_eq_true] at h2
      simp [h1, h2]
  constructor
  · unfold mergeAndRewriteAtomic
    dsimp only
    split_ifs with hg
    · simpa using hguard.mp hg
    · simp only [Bool.false_eq_true, false_iff]
      intro hcond
      exact absurd (hguard.mpr hcond) (by simp [hg])
  refine ⟨?_, ?_, sorted_head_min hsorted, sorted_getLast_max hsorted⟩ <;>
    · unfold mergeAndRewriteAtomic
      dsimp only
      split_ifs <;> simp

/-- Witness for C5 at a concrete input: an empty merge against a baseline
count of 1 shrinks the table, so the call raises and leaves the (empty)
file untouched. -/
theorem c5_merge_guard_witness :
    (mergeAndRewriteAtomic [] [] ⟨1, none, none⟩).raised = true ∧
      (mergeAndRewriteAtomic [] [] ⟨1, none, none⟩).fileRows = [] := by
  have h := c5_merge_guard [] [] ⟨1, none, none⟩
  have hr : (mergeAndRewriteAtomic [] [] ⟨1, none, none⟩).raised = true :=
    h.1.mpr (Or.inl (by decide))
  exact ⟨hr, h.2.1 hr⟩

/-! ### Selection-mode response parsing (`lm/response_parser.py`)

The JSON result nodes that `_parse_selected_word_ids` inspects are modelled
by `SelectionNode`: a node is an int, a string, a dict (of which only the
`local_id` / `word_id` / `word` entries are ever read), or anything else. -/

/-- A JSON primitive as far as `_to_int` / `str(...)` are concerned. -/
inductive JsonPrim
  | jint (n : ℤ)
  | jstr (s : String)
  | jother
  deriving DecidableEq, Repr

/-- Models Python `str.strip()`: drop whitespace from both ends
(implemented structurally so concrete runs reduce in the kernel). -/
def pyStrip (s : String) : String :=
  String.mk (((s.data.dropWhile Char.isWhitespace).reverse.dropWhile
    Char.isWhitespace).reverse)

/-- Digit-run parser used by `pyStrToInt`. -/
def digitsToNat (cs : List Char) : Option ℕ :=
  if cs = [] then none
  else if cs.all Char.isDigit then
    some (cs.foldl (fun acc c => acc * 10 + (c.toNat - 48)) 0)
  else none

/-- Models Python `int(s)` on a string: tolerates surrounding whitespace
and an optional sign, parses a decimal integer, `None` (an exception in
Python) otherwise. -/
def pyStrToInt (s : String) : Option ℤ :=
  match (pyStrip s).data with
  | '-' :: rest => (digitsToNat rest).map (fun n => -(n : ℤ))
  | '+' :: rest => (digitsToNat rest).map (fun n => (n : ℤ))
  | cs => (digitsToNat cs).map (fun n => (n : ℤ))

/-- Mirrors `_to_int(value)` applied to a fetched dict entry: an int is
kept, a string is parsed, everything else (including a missing entry) is
`None`. -/
def toIntOfPrim : Option JsonPrim → Option ℤ
  | some (.jint n) => some n
  | some (.jstr s) => pyStrToInt s
  | _ => none

/-- Models Python `str(value)` for the values that reach
`str(raw_word).strip()`. -/
def pyStr : JsonPrim → String
  | .jstr s => s
  | .jint n => toString n
  | .jother => "<object>"

/-- Mirrors the result-node shapes `_parse_selected_word_ids` reads. -/
inductive SelectionNode
  | ofInt (n : ℤ)
  | ofString (s : String)
  | ofDict (localId : Option JsonPrim) (wordId : Option JsonPrim) (word : Option JsonPrim)
  | other
  deriving DecidableEq, Repr

/-- Mirrors `SelectionCandidate`. -/
structure SelectionCandidate where
  returnedId : Option ℤ
  word : Option String
  deriving DecidableEq, Repr

/-- Mirrors the `for node in results` loop of `_parse_selected_word_ids`
for one node: an int node gives an id, a string node is parsed as an int
(otherwise dropped), a dict node gives `local_id` falling back to
`word_id` plus a stripped non-empty `word`; a node with neither id nor
word is skipped. -/
def candidateOfNode (node : SelectionNode) : Option SelectionCandidate :=
  match node with
  | .ofInt n => some ⟨some n, none⟩
  | .ofString s =>
      match pyStrToInt s with
      | some n => some ⟨some n, none⟩
      | none => none
  | .ofDict lid wid w =>
      let nodeId := (toIntOfPrim lid).orElse (fun _ => toIntOfPrim wid)
      let word := (w.map (fun v => pyStrip (pyStr v))).bind
        (fun t => if t = "" then none else some t)
      if nodeId.isSome ∨ word.isSome then some ⟨nodeId, word⟩ else none
  | .other => none

def rawSelections (results : List SelectionNode) : List SelectionCandidate :=
  results.filterMap candidateOfNode

/-- Mirrors `batch_by_local = {idx + 1: row for idx, row in enumerate(batch)}`:
local id `i` (1-based) maps to `batch[i-1]`. -/
def localLookup (batch : List BaseWordRow) (lid : ℤ) : Option BaseWordRow :=
  if lid < 1 then none else batch[(lid - 1).toNat]?

/-- Mirrors `batch_by_id = {r.word_id: r for r in batch}`: the last row with
a given id wins. -/
def idLookup (batch : List BaseWordRow) (wid : ℤ) : Option BaseWordRow :=
  (batch.filter (fun r => r.wordId = wid)).getLast?

/-- First-occurrence key order of `batch_by_id` (dict insertion order). -/
def firstOccurrenceIds : List BaseWordRow → List ℤ
  | [] => []
  | r :: rest => r.wordId :: (firstOccurrenceIds rest).filter (fun w => w ≠ r.wordId)

/-- `batch_by_id.items()` in dict order: first-occurrence key positions,
last-winning values. -/
def batchByIdList (batch : List BaseWordRow) : List BaseWordRow :=
  (firstOccurrenceIds batch).filterMap (fun wid => idLookup batch wid)

/-- Mirrors `remaining = {wid: row for wid, row in batch_by_id.items() if
wid not in selected_set}`. -/
def remainingInit (batch : List BaseWordRow) (selected : List ℤ) : List BaseWordRow :=
  (batchByIdList batch).filter (fun row => row.wordId ∉ selected)

/-- Stage 1 of `_coerce_selections_to_word_ids` (strict local-id matching):
one loop iteration appends the row's id when the candidate's returned id is
a known 1-based local id not yet selected, then returns as soon as the
selection reaches the expected count. `selected_set` mirrors membership in
the `selected` list and is modelled by list membership. -/
def coerceStage1 (batch : List BaseWordRow) (expected : ℤ) :
    List SelectionCandidate → List ℤ → List ℤ
  | [], selected => selected
  | c :: cs, selected =>
      let selected2 :=
        match c.returnedId with
        | some lid =>
            match localLookup batch lid with
            | some row =>
                if row.wordId ∈ selected then selected else selected ++ [row.wordId]
            | none => selected
        | none => selected
      if (selected2.length : ℤ) = expected then selected2
      else coerceStage1 batch expected cs selected2

/-- Models Python `str.lower` for the characters this program handles:
ASCII letters plus the uppercase Romanian diacritics. -/
def pyLowerChar (c : Char) : Char :=
  match c with
  | 'Ă' => 'ă'
  | 'Â' => 'â'
  | 'Î' => 'î'
  | 'Ș' => 'ș'
  | 'Ț' => 'ț'
  | 'Ş' => 'ş'
  | 'Ţ' => 'ţ'
  | _ => c.toLower

def pyLower (s : String) : String :=
  String.mk (s.data.map pyLowerChar)

/-- Models one character of the `\w`/`\d` class of
`SELECTION_EDGE_PUNCTUATION`: alphanumerics, underscore, and (as Python's
`re` is Unicode-aware) every non-ASCII character this program meets. -/
def isWordChar (c : Char) : Bool :=
  c.isAlphanum ∨ c = '_' ∨ ¬ (c.toNat < 128)

/-- Mirrors `.replace("â€™", "'")` (the three-character mojibake sequence
becomes an apostrophe). -/
def replaceMojibakeApostrophe : List Char → List Char
  | 'â' :: '€' :: '™' :: rest => Char.ofNat 39 :: replaceMojibakeApostrophe rest
  | c :: rest => c :: replaceMojibakeApostrophe rest
  | [] => []

/-- Mirrors `_normalize_selection_word`: empty after strip gives `""`;
otherwise lowercase, strip, un-mojibake the apostrophe, and strip leading
and trailing runs of non-word characters. -/
def normalizeSelectionWord (value : String) : String :=
  if pyStrip value = "" then ""
  else
    let lowered := String.mk (replaceMojibakeApostrophe ((pyStrip (pyLower value)).data))
    let chars2 := lowered.data.dropWhile (fun c => ¬ isWordChar c)
    let chars3 := (chars2.reverse.dropWhile (fun c => ¬ isWordChar c)).reverse
    String.mk chars3

/-- The row predicate of stage 2's `for row in remaining.values()` search. -/
def wordMatchesRow (row : BaseWordRow) (exactKey normKey : String) : Bool :=
  pyLower row.word = exactKey ∨ (normKey ≠ "" ∧ normalizeSelectionWord row.word = normKey)

/-- Stage 2 of `_coerce_selections_to_word_ids` (word-matching fallback):
candidates whose returned id is a valid local id are skipped, otherwise the
first unselected remaining row matching the candidate's word (exact
lowercase or normalized) is selected and removed from `remaining`. -/
def coerceStage2 (batch : List BaseWordRow) (expected : ℤ) :
    List SelectionCandidate → List ℤ → List BaseWordRow → List ℤ
  | [], selected, _ => selected
  | c :: cs, selected, remaining =>
      if (selected.length : ℤ) = expected then selected
      else if (match c.returnedId with
               | some lid => (localLookup batch lid).isSome
               | none => false) then
        coerceStage2 batch expected cs selected remaining
      else
        match c.word with
        | none => coerceStage2 batch expected cs selected remaining
        | some w =>
            let rawWord := pyStrip w
            let exactKey := pyLower rawWord
            let normKey := normalizeSelectionWord rawWord
            match remaining.find? (fun row => wordMatchesRow row exactKey normKey) with
            | none => coerceStage2 batch expected cs selected remaining
            | some row =>
                if row.wordId ∈ selected then
                  coerceStage2 batch expected cs selected remaining
                else
                  coerceStage2 batch expected cs (selected ++ [row.wordId])
                    (remaining.filter (fun x => x.wordId ≠ row.wordId))

/-- First-occurrence dedup of the raw returned ids (stage 3's
`distinct_ids`). -/
def dedupFirstInts : List ℤ → List ℤ
  | [] => []
  | n :: rest => n :: (dedupFirstInts rest).filter (fun m => m ≠ n)

/-- The index-collecting loop of stage 3: `idx = raw_id - base` is kept when
in range and unseen; the loop breaks once `expected` indices are found. -/
def stage3Go (len : ℕ) (expected : ℤ) (base : ℤ) : List ℤ → List ℕ → List ℕ
  | [], acc => acc
  | rid :: rest, acc =>
      let idx := rid - base
      let acc2 :=
        if 0 ≤ idx ∧ idx < (len : ℤ) ∧ idx.toNat ∉ acc then acc ++ [idx.toNat] else acc
      if (acc2.length : ℤ) = expected then acc2 else stage3Go len expected base rest acc2

/-- Stage 3 of `_coerce_selections_to_word_ids` (positional fallback): the
distinct id stream is reinterpreted as 0-based if it contains 0, else
1-based, and mapped through batch positions. -/
def coerceStage3 (batch : List BaseWordRow) (expected : ℤ)
    (raw : List SelectionCandidate) : List ℤ :=
  let distinctIds := dedupFirstInts (raw.filterMap (fun c => c.returnedId))
  if distinctIds = [] then []
  else
    let base : ℤ := if (0 : ℤ) ∈ distinctIds then 0 else 1
    let indices := stage3Go batch.length expected base distinctIds []
    indices.filterMap (fun idx => (batch[idx]?).map (fun r => r.wordId))

/-- Mirrors `_coerce_selections_to_word_ids`: the three stages in order,
with stage 2 run only while the selection is short, stage 3 only when it is
still empty. -/
def coerceSelectionsToWordIds (raw : List SelectionCandidate)
    (batch : List BaseWordRow) (expected : ℤ) : List ℤ :=
  if expected ≤ 0 ∨ batch = [] then []
  else
    let s1 := coerceStage1 batch expected raw []
    if (s1.length : ℤ) = expected then s1
    else
      let s2 :=
        if (s1.length : ℤ) < expected then
          coerceStage2 batch expected raw s1 (remainingInit batch s1)
        else s1
      if (s1.length : ℤ) < expected ∧ (s2.length : ℤ) = expected then s2
      else if s2 ≠ [] then s2
      else coerceStage3 batch expected raw

/-- Exceptions `_parse_selected_word_ids` can raise. -/
inductive ParseErr
  | valueError (msg : String)
  | runtimeError (msg : String)
  deriving DecidableEq, Repr

/-- Mirrors `ParsedBatch`. -/
structure ParsedBatch where
  scores : List ScoreResult
  unresolved : List BaseWordRow
  deriving DecidableEq, Repr

/-- Mirrors the final list comprehension of `_parse_selected_word_ids`:
each selected id is looked up in `batch_by_id` (a missing key would be a
`KeyError`, modelled as `none`) and mapped to a `ScoreResult` carrying the
forced level, tag `"common"` and confidence `0.9`. -/
def buildSelectionScores (batch : List BaseWordRow) (lvl : ℤ) :
    List ℤ → Option (List ScoreResult)
  | [] => some []
  | wid :: rest =>
      match idLookup batch wid, buildSelectionScores batch lvl rest with
      | some row, some out =>
          some (⟨row.wordId, row.word, row.type, lvl, "common", confidence09⟩ :: out)
      | _, _ => none

/-- Mirrors `_parse_selected_word_ids`: validate the forced level and the
expected count, short-circuit an empty batch, build the raw candidates,
coerce them to word ids, enforce the exact expected count, and emit the
forced-level results. -/
def parseSelectedWordIds (batch : List BaseWordRow) (results : List SelectionNode)
    (forcedRarityLevel : Option ℤ) (expectedItems : Option ℤ) :
    Except ParseErr ParsedBatch :=
  let rarityLevel : Option ℤ :=
    match forcedRarityLevel with
    | some l => if l = 1 ∨ l = 2 ∨ l = 3 ∨ l = 4 ∨ l = 5 then some l else none
    | none => none
  match rarityLevel with
  | none => .error (.valueError "forced_rarity_level is required for selected-word-id mode")
  | some lvl =>
      let expected : Option ℤ :=
        match expectedItems with
        | some e => if 0 < e then some e else none
        | none => none
      match expected with
      | none => .error (.valueError "expected_items is required for selected-word-id mode")
      | some exp =>
          if batch = [] then .ok ⟨[], []⟩
          else
            let selected := coerceSelectionsToWordIds (rawSelections results) batch exp
            if (selected.length : ℤ) ≠ exp then
              .error (.runtimeError "Expected exactly N selected ids")
            else
              match buildSelectionScores batch lvl selected with
              | some scores => .ok ⟨scores, []⟩
              | none => .error (.runtimeError "KeyError")

theorem nodup_append_singleton {α : Type} [DecidableEq α] {l : List α} {x : α}
    (h : l.Nodup) (hx : x ∉ l) : (l ++ [x]).Nodup := by
  rw [List.nodup_append]
  refine ⟨h, List.nodup_singleton x, fun a ha hb => ?_⟩
  rw [List.mem_singleton] at hb
  subst hb
  exact hx ha

theorem idLookup_spec {batch : List BaseWordRow} {wid : ℤ} {row : BaseWordRow}
    (h : idLookup batch wid = some row) : row ∈ batch ∧ row.wordId = wid := by
  unfold idLookup at h
  obtain ⟨hne, heq⟩ := List.mem_getLast?_eq_getLast (Option.mem_def.mpr h)
  have hrow : row ∈ batch.filter (fun r => r.wordId = wid) := heq ▸ List.getLast_mem hne
  have hm := List.mem_filter.mp hrow
  exact ⟨hm.1, by simpa using hm.2⟩

theorem localLookup_mem {batch : List BaseWordRow} {lid : ℤ} {row : BaseWordRow}
    (h : localLookup batch lid = some row) : row ∈ batch := by
  unfold localLookup at h
  split_ifs at h
  obtain ⟨hlt, rfl⟩ := List.getElem?_eq_some.mp h
  exact List.getElem_mem hlt

theorem batchByIdList_sub {batch : List BaseWordRow} {row : BaseWordRow}
    (h : row ∈ batchByIdList batch) : row ∈ batch := by
  unfold batchByIdList at h
  obtain ⟨wid, _, hl⟩ := List.mem_filterMap.mp h
  exact (idLookup_spec hl).1

/-- Stage 1 keeps the selection duplicate-free and inside the batch. -/
theorem coerceStage1_invariant (batch : List BaseWordRow) (expected : ℤ) :
    ∀ (cs : List SelectionCandidate) (acc : List ℤ),
      acc.Nodup → (∀ w ∈ acc, w ∈ batch.map (fun r => r.wordId)) →
      (coerceStage1 batch expected cs acc).Nodup ∧
        ∀ w ∈ coerceStage1 batch expected cs acc, w ∈ batch.map (fun r => r.wordId) := by
  intro cs
  induction cs with
  | nil => intro acc h1 h2; exact ⟨h1, h2⟩
  | cons c rest ih =>
      intro acc h1 h2
      unfold coerceStage1
      have hsel2 : ∀ acc2 : List ℤ,
          (acc2 = acc ∨ ∃ row, row ∈ batch ∧ row.wordId ∉ acc ∧ acc2 = acc ++ [row.wordId]) →
          acc2.Nodup ∧ ∀ w ∈ acc2, w ∈ batch.map (fun r => r.wordId) := by
        rintro acc2 (rfl | ⟨row, hrow, hnotin, rfl⟩)
        · exact ⟨h1, h2⟩
        · refine ⟨nodup_append_singleton h1 hnotin, fun w hw => ?_⟩
          rcases List.mem_append.mp hw with hw | hw
          · exact h2 w hw
          · rw [List.mem_singleton] at hw
            subst hw
            exact List.mem_map_of_mem _ hrow
      have hshape : (match c.returnedId with
          | some lid =>
              match localLookup batch lid with
              | some row =>
                  if row.wordId ∈ acc then acc else acc ++ [row.wordId]
              | none => acc
          | none => acc) = acc ∨
          ∃ row, row ∈ batch ∧ row.wordId ∉ acc ∧
            (match c.returnedId with
            | some lid =>
                match localLookup batch lid with
                | some row =>
                    if row.wordId ∈ acc then acc else acc ++ [row.wordId]
                | none => acc
            | none => acc) = acc ++ [row.wordId] := by
        rcases c.returnedId with _ | lid
        · exact Or.inl rfl
        · dsimp only
          rcases hl : localLookup batch lid with _ | row
          · exact Or.inl rfl
          · dsimp only
            by_cases hmem : row.wordId ∈ acc
            · rw [if_pos hmem]; exact Or.inl rfl
            · rw [if_neg hmem]
              exact Or.inr ⟨row, localLookup_mem hl, hmem, rfl⟩
      dsimp only
      have hs := hsel2 _ hshape
      split_ifs
      · exact hs
      · exact ih _ hs.1 hs.2

/-- Stage 2 keeps the selection duplicate-free and inside the batch. -/
theorem coerceStage2_invariant (batch : List BaseWordRow) (expected : ℤ) :
    ∀ (cs : List SelectionCandidate) (acc : List ℤ) (remaining : List BaseWordRow),
      acc.Nodup → (∀ w ∈ acc, w ∈ batch.map (fun r => r.wordId)) →
      (∀ row ∈ remaining, row ∈ batch) →
      (coerceStage2 batch expected cs acc remaining).Nodup ∧
        ∀ w ∈ coerceStage2 batch expected cs acc remaining,
          w ∈ batch.map (fun r => r.wordId) := by
  intro cs
  induction cs with
  | nil => intro acc remaining h1 h2 _; exact ⟨h1, h2⟩
  | cons c rest ih =>
      intro acc remaining h1 h2 hrem
      unfold coerceStage2
      dsimp only
      split_ifs
      · exact ⟨h1, h2⟩
      · exact ih acc remaining h1 h2 hrem
      · rcases c.word with _ | w
        · exact ih acc remaining h1 h2 hrem
        · dsimp only
          rcases hf : remaining.find? (fun row =>
              wordMatchesRow row (pyLower (pyStrip w)) (normalizeSelectionWord (pyStrip w)))
            with _ | row
          · exact ih acc remaining h1 h2 hrem
          · dsimp only
            have hrowb : row ∈ batch := hrem row (List.mem_of_find?_eq_some hf)
            by_cases hmem : row.wordId ∈ acc
            · rw [if_pos hmem]
              exact ih acc remaining h1 h2 hrem
            · rw [if_neg hmem]
              refine ih _ _ (nodup_append_singleton h1 hmem) ?_ ?_
              · intro x hx
                rcases List.mem_append.mp hx with hx | hx
                · exact h2 x hx
                · rw [List.mem_singleton] at hx
                  subst hx
                  exact List.mem_map_of_mem _ hrowb
              · intro r hr
                exact hrem r (List.mem_filter.mp hr).1

/-- Positions produced by stage 3's index loop are duplicate-free and in
range. -/
theorem stage3Go_invariant (len : ℕ) (expected base : ℤ) :
    ∀ (rids : List ℤ) (acc : List ℕ),
      acc.Nodup → (∀ i ∈ acc, i < len) →
      (stage3Go len expected base rids acc).Nodup ∧
        ∀ i ∈ stage3Go len expected base rids acc, i < len := by
  intro rids
  induction rids with
  | nil => intro acc h1 h2; exact ⟨h1, h2⟩
  | cons rid rest ih =>
      intro acc h1 h2
      unfold stage3Go
      dsimp only
      by_cases hc : 0 ≤ rid - base ∧ rid - base < (len : ℤ) ∧ (rid - base).toNat ∉ acc
      · rw [if_pos hc]
        have h1b : (acc ++ [(rid - base).toNat]).Nodup := nodup_append_singleton h1 hc.2.2
        have h2b : ∀ i ∈ acc ++ [(rid - base).toNat], i < len := by
          intro i hi
          rcases List.mem_append.mp hi with hi | hi
          · exact h2 i hi
          · rw [List.mem_singleton] at hi
            subst hi
            omega
        split_ifs
        · exact ⟨h1b, h2b⟩
        · exact ih _ h1b h2b
      · rw [if_neg hc]
        split_ifs
        · exact ⟨h1, h2⟩
        · exact ih _ h1 h2

/-- With pairwise-distinct batch ids, positions determine ids injectively. -/
theorem wordId_getElem_inj {batch : List BaseWordRow}
    (hN : (batch.map (fun r => r.wordId)).Nodup)
    {i j : ℕ} (hi : i < batch.length) (hj : j < batch.length)
    (h : (batch.get ⟨i, hi⟩).wordId = (batch.get ⟨j, hj⟩).wordId) : i = j := by
  have hinj := List.nodup_iff_injective_get.mp hN
  have hi2 : i < (batch.map (fun r => r.wordId)).length := by simpa using hi
  have hj2 : j < (batch.map (fun r => r.wordId)).length := by simpa using hj
  have hg : (batch.map (fun r => r.wordId)).get ⟨i, hi2⟩ =
      (batch.map (fun r => r.wordId)).get ⟨j, hj2⟩ := by
    simp only [List.get_eq_getElem, List.getElem_map]
    exact h
  have := hinj hg
  simpa using congrArg Fin.val this

/-- Mapping distinct in-range positions through the batch yields
duplicate-free in-batch ids (stage 3's final list comprehension). -/
theorem stage3_map_spec {batch : List BaseWordRow}
    (hN : (batch.map (fun r => r.wordId)).Nodup) :
    ∀ (idxs : List ℕ), idxs.Nodup → (∀ i ∈ idxs, i < batch.length) →
      (idxs.filterMap (fun idx => (batch[idx]?).map (fun r => r.wordId))).Nodup ∧
        ∀ w ∈ idxs.filterMap (fun idx => (batch[idx]?).map (fun r => r.wordId)),
          w ∈ batch.map (fun r => r.wordId) := by
  intro idxs
  induction idxs with
  | nil => intro _ _; simp
  | cons i rest ih =>
      intro hnd hlt
      have hi : i < batch.length := hlt i (List.mem_cons_self i rest)
      have hrest := ih (List.Nodup.of_cons hnd) (fun j hj => hlt j (List.mem_cons_of_mem i hj))
      have hstep : (i :: rest).filterMap (fun idx => (batch[idx]?).map (fun r => r.wordId)) =
          (batch.get ⟨i, hi⟩).wordId ::
            rest.filterMap (fun idx => (batch[idx]?).map (fun r => r.wordId)) := by
        rw [List.filterMap_cons]
        rw [List.getElem?_eq_getElem hi]
        rfl
      rw [hstep]
      constructor
      · rw [List.nodup_cons]
        refine ⟨fun hmem => ?_, hrest.1⟩
        obtain ⟨j, hjrest, hjeq⟩ := List.mem_filterMap.mp hmem
        have hj : j < batch.length := hlt j (List.mem_cons_of_mem i hjrest)
        rw [List.getElem?_eq_getElem hj] at hjeq
        have heq : (batch.get ⟨j, hj⟩).wordId = (batch.get ⟨i, hi⟩).wordId := by
          simpa using hjeq
        have := wordId_getElem_inj hN hj hi heq
        subst this
        exact (List.nodup_cons.mp hnd).1 hjrest
      · intro w hw
        rcases List.mem_cons.mp hw with rfl | hw
        · exact List.mem_map_of_mem _ (batch.get_mem _ _)
        · exact hrest.2 w hw

/-- Stage 3's output is duplicate-free and drawn from the batch. -/
theorem coerceStage3_spec (batch : List BaseWordRow) (expected : ℤ)
    (raw : List SelectionCandidate) (hN : (batch.map (fun r => r.wordId)).Nodup) :
    (coerceStage3 batch expected raw).Nodup ∧
      ∀ w ∈ coerceStage3 batch expected raw, w ∈ batch.map (fun r => r.wordId) := by
  unfold coerceStage3
  dsimp only
  split_ifs with hd h0m
  · simp
  · have hidx := stage3Go_invariant batch.length expected 0
      (dedupFirstInts (raw.filterMap (fun c => c.returnedId))) [] List.nodup_nil (by simp)
    exact stage3_map_spec hN _ hidx.1 hidx.2
  · have hidx := stage3Go_invariant batch.length expected 1
      (dedupFirstInts (raw.filterMap (fun c => c.returnedId))) [] List.nodup_nil (by simp)
    exact stage3_map_spec hN _ hidx.1 hidx.2

/-- The coerced selection is duplicate-free and drawn from the batch. -/
theorem coerceSelections_spec (raw : List SelectionCandidate) (batch : List BaseWordRow)
    (expected : ℤ) (hN : (batch.map (fun r => r.wordId)).Nodup) :
    (coerceSelectionsToWordIds raw batch expected).Nodup ∧
      ∀ w ∈ coerceSelectionsToWordIds raw batch expected,
        w ∈ batch.map (fun r => r.wordId) := by
  unfold coerceSelectionsToWordIds
  dsimp only
  have hs1 := coerceStage1_invariant batch expected raw [] List.nodup_nil (by simp)
  have hs2 := coerceStage2_invariant batch expected raw
    (coerceStage1 batch expected raw [])
    (remainingInit batch (coerceStage1 batch expected raw [])) hs1.1 hs1.2
    (fun row hrow => batchByIdList_sub (List.mem_filter.mp hrow).1)
  have hs3 := coerceStage3_spec batch expected raw hN
  split_ifs <;> first | exact hs1 | exact hs2 | exact hs3 | simp

/-- The emitted scores echo the selected ids in order and carry the forced
level, tag `"common"` and confidence `0.9`. -/
theorem buildSelectionScores_spec (batch : List BaseWordRow) (lvl : ℤ) :
    ∀ (sel : List ℤ) (out : List ScoreResult),
      buildSelectionScores batch lvl sel = some out →
      out.map (fun s => s.wordId) = sel ∧
        ∀ s ∈ out, s.rarityLevel = lvl ∧ s.tag = "common" ∧ s.confidence = confidence09 := by
  intro sel
  induction sel with
  | nil =>
      intro out h
      cases h
      simp
  | cons wid rest ih =>
      intro out h
      unfold buildSelectionScores at h
      rcases hl : idLookup batch wid with _ | row <;> rw [hl] at h
      · cases h
      · rcases hb : buildSelectionScores batch lvl rest with _ | out2 <;> rw [hb] at h
        · cases h
        · cases h
          obtain ⟨hmap, hall⟩ := ih out2 hb
          refine ⟨?_, ?_⟩
          · simp only [List.map_cons, hmap]
            rw [(idLookup_spec hl).2]
          · intro s hs
            rcases List.mem_cons.mp hs with rfl | hs
            · exact ⟨rfl, rfl, rfl⟩
            · exact hall s hs

/-- Inversion of the non-error path of `_parse_selected_word_ids`. -/
theorem parseSelectedWordIds_ok_inv
    {batch : List BaseWordRow} {results : List SelectionNode}
    {forced expected : Option ℤ} {pb : ParsedBatch}
    (hok : parseSelectedWordIds batch results forced expected = .ok pb) :
    ∃ lvl exp, forced = some lvl ∧ (lvl = 1 ∨ lvl = 2 ∨ lvl = 3 ∨ lvl = 4 ∨ lvl = 5) ∧
      expected = some exp ∧ 0 < exp ∧
      ((batch = [] ∧ pb = ⟨[], []⟩) ∨
        (batch ≠ [] ∧
          ∃ scores, buildSelectionScores batch lvl
              (coerceSelectionsToWordIds (rawSelections results) batch exp) = some scores ∧
            ((coerceSelectionsToWordIds (rawSelections results) batch exp).length : ℤ) = exp ∧
            pb = ⟨scores, []⟩)) := by
  unfold parseSelectedWordIds at hok
  rcases forced with _ | f
  · cases hok
  · dsimp only at hok
    by_cases hf : f = 1 ∨ f = 2 ∨ f = 3 ∨ f = 4 ∨ f = 5
    · rw [if_pos hf] at hok
      dsimp only at hok
      rcases expected with _ | e
      · cases hok
      · dsimp only at hok
        by_cases he : 0 < e
        · rw [if_pos he] at hok
          dsimp only at hok
          refine ⟨f, e, rfl, hf, rfl, he, ?_⟩
          by_cases hb : batch = []
          · rw [if_pos hb] at hok
            cases hok
            exact Or.inl ⟨hb, rfl⟩
          · rw [if_neg hb] at hok
            refine Or.inr ⟨hb, ?_⟩
            split_ifs at hok with hlen
            · rcases hs : buildSelectionScores batch f
                  (coerceSelectionsToWordIds (rawSelections results) batch e)
                with _ | scores <;> rw [hs] at hok <;> dsimp only at hok
              · cases hok
              · cases hok
                exact ⟨scores, rfl, not_not.mp hlen, rfl⟩
        · rw [if_neg he] at hok
          cases hok
    · rw [if_neg hf] at hok
      cases hok

/-- C1 counterexample: with an EMPTY batch, forced level 1 and expected
count 1, `_parse_selected_word_ids` returns zero `ScoreResult`s without
raising (the `if not batch` short-circuit runs after the expected-count
validation), so the claim's "for every input batch" quantification fails:
the result length is 0, not the expected 1, and no error is raised. -/
theorem c1_empty_batch_counterexample :
    parseSelectedWordIds [] [SelectionNode.ofInt 1] (some 1) (some 1) =
        Except.ok ⟨[], []⟩ ∧
      ¬((([] : List ScoreResult).length : ℤ) = 1) := by
  exact ⟨rfl, by decide⟩

/-- C1 (amended to non-empty batches): for every non-empty batch, result
list, forced level and expected count > 0, `_parse_selected_word_ids`
either raises or returns exactly the expected number of `ScoreResult`s;
and on the spec's own examples with batch size 2 and expected 1:
`[1]` yields one result mapped from local id 1 (word id 101), `[999]`
raises a contract violation, and `[1]` with expected 2 raises too. -/
theorem c1_selection_exact_count :
    (∀ (batch : List BaseWordRow) (results : List SelectionNode)
        (forced expected : ℤ) (pb : ParsedBatch),
        batch ≠ [] → 0 < expected →
        parseSelectedWordIds batch results (some forced) (some expected) = .ok pb →
        (pb.scores.length : ℤ) = expected) ∧
    parseSelectedWordIds [⟨101, "om", "N"⟩, ⟨102, "casă", "N"⟩]
        [SelectionNode.ofInt 1] (some 1) (some 1) =
      Except.ok ⟨[⟨101, "om", "N", 1, "common", confidence09⟩], []⟩ ∧
    parseSelectedWordIds [⟨101, "om", "N"⟩, ⟨102, "casă", "N"⟩]
        [SelectionNode.ofInt 999] (some 1) (some 1) =
      Except.error (ParseErr.runtimeError "Expected exactly N selected ids") ∧
    parseSelectedWordIds [⟨101, "om", "N"⟩, ⟨102, "casă", "N"⟩]
        [SelectionNode.ofInt 1] (some 1) (some 2) =
      Except.error (ParseErr.runtimeError "Expected exactly N selected ids") := by
  refine ⟨?_, rfl, rfl, rfl⟩
  intro batch results forced expected pb hb he hok
  obtain ⟨lvl, exp, hf, hvalid, hexp, hexp0, hcase⟩ := parseSelectedWordIds_ok_inv hok
  injection hf with hf
  injection hexp with hexp
  subst hf
  subst hexp
  rcases hcase with ⟨hb2, _⟩ | ⟨_, scores, hbs, hlen, hpb⟩
  · exact absurd hb2 hb
  · subst hpb
    have hmap := (buildSelectionScores_spec batch forced _ scores hbs).1
    have hl : scores.length =
        (coerceSelectionsToWordIds (rawSelections results) batch expected).length := by
      conv_rhs => rw [← hmap]
      simp
    dsimp only
    rw [hl]
    exact hlen

/-- Witness for C1's universal part at a concrete input: batch of two rows,
results `[1, 2]`, expected 2 — the theorem forces the returned length 2. -/
theorem c1_selection_exact_count_witness :
    (([⟨101, "om", "N", 1, "common", confidence09⟩,
        ⟨102, "casă", "N", 1, "common", confidence09⟩] : List ScoreResult).length : ℤ) = 2 :=
  c1_selection_exact_count.1 [⟨101, "om", "N"⟩, ⟨102, "casă", "N"⟩]
    [SelectionNode.ofInt 1, SelectionNode.ofInt 2] 1 2
    ⟨[⟨101, "om", "N", 1, "common", confidence09⟩,
      ⟨102, "casă", "N", 1, "common", confidence09⟩], []⟩
    (by decide) (by decide) rfl

/-- C10: in selection mode, whenever `_parse_selected_word_ids` returns (at
any fallback stage), the returned `ScoreResult`s have pairwise-distinct
word ids, every word id belongs to the input batch (whose ids are
pairwise-distinct, as the data model guarantees for a batch), and every
result carries the forced rarity level, tag `"common"` and confidence
`0.9`. -/
theorem c10_selection_results_sound :
    ∀ (batch : List BaseWordRow) (results : List SelectionNode)
      (forced expected : Option ℤ) (pb : ParsedBatch),
      (batch.map (fun r => r.wordId)).Nodup →
      parseSelectedWordIds batch results forced expected = .ok pb →
      (pb.scores.map (fun s => s.wordId)).Nodup ∧
        ∀ s ∈ pb.scores,
          s.wordId ∈ batch.map (fun r => r.wordId) ∧
            forced = some s.rarityLevel ∧ s.tag = "common" ∧ s.confidence = 9/10 := by
  intro batch results forced expected pb hN hok
  obtain ⟨lvl, exp, hf, hvalid, hexp, hexp0, hcase⟩ := parseSelectedWordIds_ok_inv hok
  subst hf
  rcases hcase with ⟨hb2, hpb⟩ | ⟨hb2, scores, hbs, hlen, hpb⟩
  · subst hpb
    simp
  · subst hpb
    obtain ⟨hmap, hall⟩ := buildSelectionScores_spec batch lvl _ scores hbs
    obtain ⟨hnd, hsub⟩ := coerceSelections_spec (rawSelections results) batch exp hN
    constructor
    · dsimp only
      rw [hmap]
      exact hnd
    · intro s hs
      have h1 := hall s hs
      refine ⟨?_, ?_, h1.2.1, ?_⟩
      · have hmem : s.wordId ∈ scores.map (fun x => x.wordId) :=
          List.mem_map_of_mem _ hs
        rw [hmap] at hmem
        exact hsub _ hmem
      · rw [h1.1]
      · rw [h1.2.2]
        exact confidence09_eq

/-- Witness for C10 at a concrete input: batch of two rows with distinct
ids, result `[2]`, forced level 3, expected 1. -/
theorem c10_selection_results_sound_witness :
    (([⟨102, "casă", "N", 3, "common", confidence09⟩] : List ScoreResult).map
        (fun s => s.wordId)).Nodup ∧
      ∀ s ∈ ([⟨102, "casă", "N", 3, "common", confidence09⟩] : List ScoreResult),
        s.wordId ∈ ([⟨101, "om", "N"⟩, ⟨102, "casă", "N"⟩] :
            List BaseWordRow).map (fun r => r.wordId) ∧
          (some 3 : Option ℤ) = some s.rarityLevel ∧
            s.tag = "common" ∧ s.confidence = 9/10 :=
  c10_selection_results_sound [⟨101, "om", "N"⟩, ⟨102, "casă", "N"⟩]
    [SelectionNode.ofInt 2] (some 3) (some 1)
    ⟨[⟨102, "casă", "N", 3, "common", confidence09⟩], []⟩ (by decide) rfl

/-! ### Resilient batch scoring (`lm/client.py`)

The network is modelled by an environment `env : ℕ → AttemptOutcome` giving,
for the `i`-th HTTP attempt of the process, either a parsed response
(scores plus unresolved rows) or a raised exception abstracted by the
boolean features the code tests on the error text
(`_is_connectivity_failure`, `_is_unsupported_response_format`, ...).
State that Python keeps on `self` (the capability state) and the global
attempt counter are threaded explicitly; every function returns them even
on the error path, matching Python where a raise leaves `self` mutated. -/

/-- Mirrors `ResponseFormatMode` of `request_builder.py`. -/
inductive ResponseFormatMode
  | jsonObject
  | jsonSchema
  | noneMode
  deriving DecidableEq, Repr

/-- Mirrors `LmApiFlavor`. -/
inductive ClientFlavor
  | openaiCompat
  | lmstudioRest
  deriving DecidableEq, Repr

/-- Mirrors `ScoringOutputMode`. -/
inductive OutputMode
  | scoreResults
  | selectedWordIds
  deriving DecidableEq, Repr

/-- Mirrors `CapabilityState` (dataclass defaults: `JSON_OBJECT`, `True`). -/
structure CapState where
  responseFormatMode : ResponseFormatMode
  reasoningControlsSupported : Bool
  deriving DecidableEq, Repr

/-- Mirrors `CapabilityState()`'s defaults, the state a fresh
`LmStudioClient` starts with. -/
def capStateInit : CapState := ⟨.jsonObject, true⟩

/-- The fields of `ScoringContext` that drive control flow. -/
structure ClientContext where
  maxRetries : ℕ
  allowPartialResults : Bool
  expectedJsonItems : Option ℤ
  outputMode : OutputMode
  forcedRarityLevel : Option ℤ
  flavor : ClientFlavor
  hasReasoningControls : Bool
  deriving DecidableEq, Repr

/-- One raised exception, abstracted by the predicates the client applies
to its text (`_is_connectivity_failure`, `_is_unsupported_response_format`,
`_should_switch_to_json_schema`, `_is_unsupported_reasoning_controls`,
`_is_empty_parsed_results`, `_is_model_crash`,
`_is_selection_count_mismatch`). -/
structure LmError where
  connectivity : Bool
  unsupportedResponseFormat : Bool
  switchToJsonSchema : Bool
  unsupportedReasoningControls : Bool
  emptyParsedResults : Bool
  modelCrash : Bool
  selectionCountMismatch : Bool
  deriving DecidableEq, Repr

/-- What the endpoint plus parser do on one HTTP attempt. -/
inductive AttemptOutcome
  | parsed (scores : List ScoreResult) (unresolved : List BaseWordRow)
  | raised (e : LmError)
  deriving DecidableEq, Repr

/-- Mirrors `BatchAttempt`; `lastError` keeps the raised features instead
of the message text. -/
structure BatchAttemptR where
  scores : List ScoreResult
  unresolved : List BaseWordRow
  lastError : Option LmError
  connectivityFailure : Bool
  deriving DecidableEq, Repr

/-- Mirrors `_mark_response_format_json_schema` (the `!=` guard only skips
a log line; the state effect is the same). -/
def markResponseFormatJsonSchema (c : CapState) : CapState :=
  if c.responseFormatMode ≠ .jsonSchema then { c with responseFormatMode := .jsonSchema } else c

/-- Mirrors `_mark_response_format_disabled`. -/
def markResponseFormatDisabled (c : CapState) : CapState :=
  if c.responseFormatMode ≠ .noneMode then { c with responseFormatMode := .noneMode } else c

/-- Mirrors `_mark_reasoning_controls_unsupported`. -/
def markReasoningControlsUnsupported (c : CapState) : CapState :=
  if c.reasoningControlsSupported then { c with reasoningControlsSupported := false } else c

/-- Mirrors `_should_disable_response_format_after_partial_schema_parse`:
`int(batch*0.2 + 0.9999)` is `ceil(batch/5)` for the batch sizes in use,
modelled as `(batch+4)/5`. -/
def shouldDisableAfterPartialSchemaParse (batchSize unresolvedCount : ℕ) : Bool :=
  if batchSize = 0 ∨ unresolvedCount = 0 then false
  else unresolvedCount ≥ max 1 ((batchSize + 4) / 5)

/-- Mirrors the retry loop body of `_try_score_batch`: one recursion step
per `for attempt in range(ctx.max_retries)` iteration, consuming
environment outcome `idx`. On success it returns the parsed batch (after
the possible schema-disable on a partial parse); on an exception it
classifies the error against the current local `response_format_mode` /
`include_reasoning_controls`, adapts the capability state the same way the
code does, and retries. Exhaustion reports `connectivity_failure` iff every
seen error was a connectivity failure (`saw_only_connectivity_failures`). -/
def tryScoreBatchGo (env : ℕ → AttemptOutcome) (batch : List BaseWordRow) :
    ℕ → ℕ → ResponseFormatMode → Bool → CapState → Bool → Option LmError →
    BatchAttemptR × CapState × ℕ
  | 0, idx, _, _, cap, sawOnlyConn, lastErr =>
      (⟨[], batch, lastErr, sawOnlyConn⟩, cap, idx)
  | retries + 1, idx, mode, reasoning, cap, sawOnlyConn, _lastErr =>
      match env idx with
      | .parsed scores unresolved =>
          let disableAfterPartial :=
            mode = .jsonSchema ∧
              shouldDisableAfterPartialSchemaParse batch.length unresolved.length = true
          let cap2 := if disableAfterPartial then markResponseFormatDisabled cap else cap
          (⟨scores, unresolved, none, false⟩, cap2, idx + 1)
      | .raised e =>
          let shouldSwitch := mode = .jsonObject ∧ e.switchToJsonSchema = true
          let unsupportedFormat := mode ≠ .noneMode ∧ e.unsupportedResponseFormat = true
          let emptyParsed := mode = .jsonSchema ∧ e.emptyParsedResults = true
          let unsupportedReasoning := reasoning = true ∧ e.unsupportedReasoningControls = true
          let sawOnlyConn2 := sawOnlyConn && e.connectivity
          let capMode2 :=
            if shouldSwitch then (markResponseFormatJsonSchema cap, ResponseFormatMode.jsonSchema)
            else if unsupportedFormat ∨ emptyParsed then
              (markResponseFormatDisabled cap, ResponseFormatMode.noneMode)
            else (cap, mode)
          let capReasoning2 :=
            if unsupportedReasoning then (markReasoningControlsUnsupported capMode2.1, false)
            else (capMode2.1, reasoning)
          tryScoreBatchGo env batch retries (idx + 1) capMode2.2 capReasoning2.2
            capReasoning2.1 sawOnlyConn2 (some e)

/-- Mirrors `_try_score_batch`: the local `response_format_mode` starts from
`_response_format_mode_for(flavor)` and `include_reasoning_controls` from
`_should_include_reasoning_controls(flavor, config)`, then the attempt
loop runs. -/
def tryScoreBatch (env : ℕ → AttemptOutcome) (batch : List BaseWordRow)
    (ctx : ClientContext) (cap : CapState) (idx : ℕ) :
    BatchAttemptR × CapState × ℕ :=
  let mode0 := if ctx.flavor = .openaiCompat then cap.responseFormatMode
    else ResponseFormatMode.noneMode
  let reasoning0 := ctx.flavor = .openaiCompat ∧ ctx.hasReasoningControls = true ∧
    cap.reasoningControlsSupported = true
  tryScoreBatchGo env batch ctx.maxRetries idx mode0 (decide reasoning0) cap true none

/-- Mirrors `MAX_RECURSION_DEPTH = 10`. -/
def maxRecursionDepth : ℕ := 10

/-- Mirrors `SELECTION_REPAIR_MAX_RETRIES = 1`. -/
def selectionRepairMaxRetries : ℕ := 1

/-- The fatal exceptions `_score_batch_resilient_internal` can raise. -/
inductive ScoreFatal
  | connectivity
  | missingExpectedItems
  | missingForcedLevel
  deriving DecidableEq, Repr

/-- The trivial all-selected result of the `expected >= len(batch)`
short-circuit. -/
def mkForcedScore (lvl : ℤ) (row : BaseWordRow) : ScoreResult :=
  ⟨row.wordId, row.word, row.type, lvl, "common", confidence09⟩

/-- Mirrors `_is_selection_count_mismatch(direct.last_error)` (a `None`
last error has empty text, hence no match). -/
def isSelectionCountMismatch (e : Option LmError) : Bool :=
  match e with
  | some err => err.selectionCountMismatch
  | none => false

/-- Mirrors `_try_selection_repair_before_split`: one stricter attempt with
`max_retries = 1`; its result is used only when it is a full success with
the exact expected count, and a connectivity failure here returns `None`
(continuing to the split) rather than raising. -/
def trySelectionRepairBeforeSplit (env : ℕ → AttemptOutcome) (batch : List BaseWordRow)
    (ctx : ClientContext) (cap : CapState) (idx : ℕ) :
    Option (List ScoreResult) × CapState × ℕ :=
  match ctx.expectedJsonItems with
  | none => (none, cap, idx)
  | some expected =>
      if expected ≤ 0 ∨ (batch.length : ℤ) ≤ expected then (none, cap, idx)
      else
        let repairCtx := { ctx with maxRetries := selectionRepairMaxRetries,
                                    allowPartialResults := false }
        let r := tryScoreBatch env batch repairCtx cap idx
        if r.1.connectivityFailure then (none, r.2.1, r.2.2)
        else if r.1.unresolved ≠ [] then (none, r.2.1, r.2.2)
        else if (r.1.scores.length : ℤ) ≠ expected then (none, r.2.1, r.2.2)
        else (some r.1.scores, r.2.1, r.2.2)

/-- Mirrors `_score_batch_resilient_internal` with `fuel =
MAX_RECURSION_DEPTH - depth`: the depth cap, the selection-mode
pre-checks and short-circuits, the direct attempt with the
connectivity-only fatal raise, the partial-result recursion on the
unresolved remainder, the selection repair, the singleton drop, and the
midpoint bisection with `_compute_split_expected` apportioning. -/
def scoreBatchResilientGo (env : ℕ → AttemptOutcome) :
    ℕ → List BaseWordRow → ClientContext → CapState → ℕ →
    Except ScoreFatal (List ScoreResult) × CapState × ℕ
  | 0, _batch, _ctx, cap, idx => (.ok [], cap, idx)
  | fuel + 1, batch, ctx, cap, idx =>
      let pre : Option (Except ScoreFatal (List ScoreResult)) :=
        if ctx.outputMode = .selectedWordIds then
          match ctx.expectedJsonItems, ctx.forcedRarityLevel with
          | none, _ => some (.error .missingExpectedItems)
          | some _, none => some (.error .missingForcedLevel)
          | some expected, some forced =>
              if expected ≤ 0 then some (.ok [])
              else if (batch.length : ℤ) ≤ expected then
                some (.ok (batch.map (mkForcedScore forced)))
              else none
        else none
      match pre with
      | some r => (r, cap, idx)
      | none =>
          let d := tryScoreBatch env batch ctx cap idx
          let direct := d.1
          let cap1 := d.2.1
          let idx1 := d.2.2
          if direct.connectivityFailure then (.error .connectivity, cap1, idx1)
          else if direct.scores ≠ [] then
            if ctx.allowPartialResults then (.ok direct.scores, cap1, idx1)
            else if direct.unresolved = [] then (.ok direct.scores, cap1, idx1)
            else
              match scoreBatchResilientGo env fuel direct.unresolved ctx cap1 idx1 with
              | (.ok more, cap2, idx2) => (.ok (direct.scores ++ more), cap2, idx2)
              | (.error e, cap2, idx2) => (.error e, cap2, idx2)
          else
            let rep :=
              if ctx.outputMode = .selectedWordIds ∧
                  isSelectionCountMismatch direct.lastError = true then
                trySelectionRepairBeforeSplit env batch ctx cap1 idx1
              else (none, cap1, idx1)
            match rep with
            | (some scores, cap2, idx2) => (.ok scores, cap2, idx2)
            | (none, cap2, idx2) =>
                if batch.length = 1 then (.ok [], cap2, idx2)
                else
                  let splitIdx := batch.length / 2
                  let leftBatch := batch.take splitIdx
                  let rightBatch := batch.drop splitIdx
                  let ctxs : Except ScoreFatal (ClientContext × ClientContext) :=
                    if ctx.outputMode = .selectedWordIds then
                      match ctx.expectedJsonItems with
                      | none => .error .missingExpectedItems
                      | some te =>
                          let leftExpected := computeSplitExpected te splitIdx batch.length
                          .ok ({ ctx with expectedJsonItems := some leftExpected },
                               { ctx with expectedJsonItems := some (te - leftExpected) })
                    else .ok (ctx, ctx)
                  match ctxs with
                  | .error e => (.error e, cap2, idx2)
                  | .ok (leftCtx, rightCtx) =>
                      match scoreBatchResilientGo env fuel leftBatch leftCtx cap2 idx2 with
                      | (.error e, cap3, idx3) => (.error e, cap3, idx3)
                      | (.ok ls, cap3, idx3) =>
                          match scoreBatchResilientGo env fuel rightBatch rightCtx cap3 idx3 with
                          | (.error e, cap4, idx4) => (.error e, cap4, idx4)
                          | (.ok rs, cap4, idx4) => (.ok (ls ++ rs), cap4, idx4)

/-- Mirrors `score_batch_resilient` on a fresh depth (0) and a given
capability state and attempt counter. -/
def scoreBatchResilient (env : ℕ → AttemptOutcome) (batch : List BaseWordRow)
    (ctx : ClientContext) (cap : CapState) :
    Except ScoreFatal (List ScoreResult) × CapState × ℕ :=
  scoreBatchResilientGo env maxRecursionDepth batch ctx cap 0

/-- Position of a format mode along the one-way chain
`json-object → json-schema → none`. -/
def formatRank : ResponseFormatMode → ℕ
  | .jsonObject => 0
  | .jsonSchema => 1
  | .noneMode => 2

/-- Position of the reasoning flag along `supported → unsupported`. -/
def reasoningRank (b : Bool) : ℕ := if b then 0 else 1

theorem formatRank_le_two (m : ResponseFormatMode) : formatRank m ≤ 2 := by
  cases m <;> decide

theorem reasoningRank_le_one (b : Bool) : reasoningRank b ≤ 1 := by
  cases b <;> decide

theorem markResponseFormatDisabled_spec (c : CapState) :
    (markResponseFormatDisabled c).responseFormatMode = .noneMode ∧
      (markResponseFormatDisabled c).reasoningControlsSupported =
        c.reasoningControlsSupported := by
  unfold markResponseFormatDisabled
  split_ifs with h
  · exact ⟨rfl, rfl⟩
  · exact ⟨(not_not.mp h).symm ▸ rfl, rfl⟩

theorem markResponseFormatJsonSchema_spec (c : CapState) :
    (markResponseFormatJsonSchema c).responseFormatMode = .jsonSchema ∧
      (markResponseFormatJsonSchema c).reasoningControlsSupported =
        c.reasoningControlsSupported := by
  unfold markResponseFormatJsonSchema
  split_ifs with h
  · exact ⟨rfl, rfl⟩
  · exact ⟨(not_not.mp h).symm ▸ rfl, rfl⟩

theorem markReasoningControlsUnsupported_spec (c : CapState) :
    (markReasoningControlsUnsupported c).responseFormatMode = c.responseFormatMode ∧
      (markReasoningControlsUnsupported c).reasoningControlsSupported = false := by
  unfold markReasoningControlsUnsupported
  split_ifs with h
  · exact ⟨rfl, rfl⟩
  · simp only [Bool.not_eq_true] at h
    exact ⟨rfl, h⟩

/-- Capability ranks never decrease through the retry loop; the invariant
relating the loop-local `response_format_mode` to the shared capability
state (equal, or locally forced to `none` by a non-OpenAI flavor) is
maintained. -/
theorem tryScoreBatchGo_cap_mono (env : ℕ → AttemptOutcome) (batch : List BaseWordRow) :
    ∀ (retries idx : ℕ) (mode : ResponseFormatMode) (reasoning : Bool) (cap : CapState)
      (sawOnly : Bool) (lastErr : Option LmError),
      (mode = cap.responseFormatMode ∨ mode = .noneMode) →
      formatRank cap.responseFormatMode ≤
          formatRank (tryScoreBatchGo env batch retries idx mode reasoning cap sawOnly
            lastErr).2.1.responseFormatMode ∧
        reasoningRank cap.reasoningControlsSupported ≤
          reasoningRank (tryScoreBatchGo env batch retries idx mode reasoning cap sawOnly
            lastErr).2.1.reasoningControlsSupported := by
  intro retries
  induction retries with
  | zero => intro idx mode reasoning cap sawOnly lastErr _; exact ⟨le_rfl, le_rfl⟩
  | succ r ih =>
      intro idx mode reasoning cap sawOnly lastErr hP
      unfold tryScoreBatchGo
      cases henv : env idx with
      | parsed scores unresolved =>
          dsimp only
          split_ifs with hd
          · obtain ⟨hm, hr⟩ := markResponseFormatDisabled_spec cap
            rw [hm, hr]
            exact ⟨formatRank_le_two _, le_rfl⟩
          · exact ⟨le_rfl, le_rfl⟩
      | raised e =>
          dsimp only
          set shouldSwitch := mode = .jsonObject ∧ e.switchToJsonSchema = true with hsw
          set unsupportedFormat := mode ≠ .noneMode ∧ e.unsupportedResponseFormat = true with huf
          set emptyParsed := mode = .jsonSchema ∧ e.emptyParsedResults = true with hep
          set unsupportedReasoning := reasoning = true ∧
            e.unsupportedReasoningControls = true with hur
          by_cases h1 : shouldSwitch
          · rw [if_pos h1]
            have hfmt : cap.responseFormatMode = .jsonObject := by
              rcases hP with hP | hP
              · rw [← hP, h1.1]
              · rw [h1.1] at hP
                cases hP
            have hjs := markResponseFormatJsonSchema_spec cap
            by_cases h2 : unsupportedReasoning
            · rw [if_pos h2]
              dsimp only
              have hrs := markReasoningControlsUnsupported_spec (markResponseFormatJsonSchema cap)
              have hrec := ih (idx + 1) ResponseFormatMode.jsonSchema false
                (markReasoningControlsUnsupported (markResponseFormatJsonSchema cap))
                (sawOnly && e.connectivity) (some e)
                (Or.inl (by rw [hrs.1, hjs.1]))
              refine ⟨le_trans ?_ hrec.1, le_trans ?_ hrec.2⟩
              · rw [hfmt]
                exact Nat.zero_le _
              · rw [hrs.2]
                exact reasoningRank_le_one _
            · rw [if_neg h2]
              dsimp only
              have hrec := ih (idx + 1) ResponseFormatMode.jsonSchema reasoning
                (markResponseFormatJsonSchema cap)
                (sawOnly && e.connectivity) (some e) (Or.inl hjs.1.symm)
              refine ⟨le_trans ?_ hrec.1, le_trans ?_ hrec.2⟩
              · rw [hfmt]
                exact Nat.zero_le _
              · rw [hjs.2]
          · rw [if_neg h1]
            by_cases h3 : unsupportedFormat ∨ emptyParsed
            · rw [if_pos h3]
              have hds := markResponseFormatDisabled_spec cap
              by_cases h2 : unsupportedReasoning
              · rw [if_pos h2]
                dsimp only
                have hrs := markReasoningControlsUnsupported_spec (markResponseFormatDisabled cap)
                have hrec := ih (idx + 1) ResponseFormatMode.noneMode false
                  (markReasoningControlsUnsupported (markResponseFormatDisabled cap))
                  (sawOnly && e.connectivity) (some e) (Or.inr rfl)
                refine ⟨le_trans ?_ hrec.1, le_trans ?_ hrec.2⟩
                · rw [hrs.1, hds.1]
                  exact formatRank_le_two _
                · rw [hrs.2]
                  exact reasoningRank_le_one _
              · rw [if_neg h2]
                dsimp only
                have hrec := ih (idx + 1) ResponseFormatMode.noneMode reasoning
                  (markResponseFormatDisabled cap)
                  (sawOnly && e.connectivity) (some e) (Or.inr rfl)
                refine ⟨le_trans ?_ hrec.1, le_trans ?_ hrec.2⟩
                · rw [hds.1]
                  exact formatRank_le_two _
                · rw [hds.2]
            · rw [if_neg h3]
              by_cases h2 : unsupportedReasoning
              · rw [if_pos h2]
                dsimp only
                have hrs := markReasoningControlsUnsupported_spec cap
                have hrec := ih (idx + 1) mode false (markReasoningControlsUnsupported cap)
                  (sawOnly && e.connectivity) (some e) (by rw [hrs.1]; exact hP)
                refine ⟨le_trans ?_ hrec.1, le_trans ?_ hrec.2⟩
                · rw [hrs.1]
                · rw [hrs.2]
                  exact reasoningRank_le_one _
              · rw [if_neg h2]
                dsimp only
                exact ih (idx + 1) mode reasoning cap (sawOnly && e.connectivity) (some e) hP

/-- Capability ranks never decrease across one `_try_score_batch` call. -/
theorem tryScoreBatch_cap_mono (env : ℕ → AttemptOutcome) (batch : List BaseWordRow)
    (ctx : ClientContext) (cap : CapState) (idx : ℕ) :
    formatRank cap.responseFormatMode ≤
        formatRank (tryScoreBatch env batch ctx cap idx).2.1.responseFormatMode ∧
      reasoningRank cap.reasoningControlsSupported ≤
        reasoningRank (tryScoreBatch env batch ctx cap idx).2.1.reasoningControlsSupported := by
  unfold tryScoreBatch
  dsimp only
  apply tryScoreBatchGo_cap_mono
  by_cases hf : ctx.flavor = .openaiCompat
  · rw [if_pos hf]
    exact Or.inl rfl
  · rw [if_neg hf]
    exact Or.inr rfl

/-- Capability-state order along the one-way chains. -/
def capLe (a b : CapState) : Prop :=
  formatRank a.responseFormatMode ≤ formatRank b.responseFormatMode ∧
    reasoningRank a.reasoningControlsSupported ≤ reasoningRank b.reasoningControlsSupported

theorem capLe_refl (a : CapState) : capLe a a := ⟨le_rfl, le_rfl⟩

theorem capLe_trans {a b c : CapState} (h1 : capLe a b) (h2 : capLe b c) : capLe a c :=
  ⟨le_trans h1.1 h2.1, le_trans h1.2 h2.2⟩

theorem tryScoreBatch_capLe (env : ℕ → AttemptOutcome) (batch : List BaseWordRow)
    (ctx : ClientContext) (cap : CapState) (idx : ℕ) :
    capLe cap (tryScoreBatch env batch ctx cap idx).2.1 :=
  tryScoreBatch_cap_mono env batch ctx cap idx

theorem trySelectionRepairBeforeSplit_capLe (env : ℕ → AttemptOutcome)
    (batch : List BaseWordRow) (ctx : ClientContext) (cap : CapState) (idx : ℕ) :
    capLe cap (trySelectionRepairBeforeSplit env batch ctx cap idx).2.1 := by
  unfold trySelectionRepairBeforeSplit
  rcases ctx.expectedJsonItems with _ | expected
  · exact capLe_refl _
  · dsimp only
    split_ifs <;> first
      | exact capLe_refl _
      | exact tryScoreBatch_capLe env batch _ cap idx

/-- Capability ranks never decrease across a whole resilient-scoring call,
recursion, repair and bisection included. -/
theorem scoreBatchResilientGo_capLe (env : ℕ → AttemptOutcome) :
    ∀ (fuel : ℕ) (batch : List BaseWordRow) (ctx : ClientContext) (cap : CapState) (idx : ℕ),
      capLe cap (scoreBatchResilientGo env fuel batch ctx cap idx).2.1 := by
  intro fuel
  induction fuel with
  | zero => intro batch ctx cap idx; exact capLe_refl _
  | succ f ih =>
      intro batch ctx cap idx
      unfold scoreBatchResilientGo
      dsimp only
      split
      · exact capLe_refl _
      · have h1 := tryScoreBatch_capLe env batch ctx cap idx
        by_cases hconn : (tryScoreBatch env batch ctx cap idx).1.connectivityFailure = true
        · rw [if_pos hconn]; exact h1
        · rw [if_neg hconn]
          by_cases hscores : (tryScoreBatch env batch ctx cap idx).1.scores ≠ []
          · rw [if_pos hscores]
            by_cases hpart : ctx.allowPartialResults = true
            · rw [if_pos hpart]; exact h1
            · rw [if_neg hpart]
              by_cases hunres : (tryScoreBatch env batch ctx cap idx).1.unresolved = []
              · rw [if_pos hunres]; exact h1
              · rw [if_neg hunres]
                have h2 := ih (tryScoreBatch env batch ctx cap idx).1.unresolved ctx
                  (tryScoreBatch env batch ctx cap idx).2.1
                  (tryScoreBatch env batch ctx cap idx).2.2
                split
                next more cap2 idx2 heq => rw [heq] at h2; exact capLe_trans h1 h2
                next e cap2 idx2 heq => rw [heq] at h2; exact capLe_trans h1 h2
          · rw [if_neg hscores]
            have hrep : ∀ (o : Option (List ScoreResult)) (cap2 : CapState) (idx2 : ℕ),
                (if ctx.outputMode = OutputMode.selectedWordIds ∧
                    isSelectionCountMismatch
                      (tryScoreBatch env batch ctx cap idx).1.lastError = true
                  then trySelectionRepairBeforeSplit env batch ctx
                    (tryScoreBatch env batch ctx cap idx).2.1
                    (tryScoreBatch env batch ctx cap idx).2.2
                  else (none, (tryScoreBatch env batch ctx cap idx).2.1,
                    (tryScoreBatch env batch ctx cap idx).2.2)) = (o, cap2, idx2) →
                capLe cap cap2 := by
              intro o cap2 idx2 heq
              by_cases hcond : ctx.outputMode = OutputMode.selectedWordIds ∧
                  isSelectionCountMismatch
                    (tryScoreBatch env batch ctx cap idx).1.lastError = true
              · rw [if_pos hcond] at heq
                have h2 := trySelectionRepairBeforeSplit_capLe env batch ctx
                  (tryScoreBatch env batch ctx cap idx).2.1
                  (tryScoreBatch env batch ctx cap idx).2.2
                rw [heq] at h2
                exact capLe_trans h1 h2
              · rw [if_neg hcond] at heq
                cases heq
                exact h1
            split
            next scores cap2 idx2 heq => exact hrep _ _ _ heq
            next cap2 idx2 heq =>
              have hc2 : capLe cap cap2 := hrep _ _ _ heq
              by_cases hsingle : batch.length = 1
              · rw [if_pos hsingle]; exact hc2
              · rw [if_neg hsingle]
                split
                next e heqc => exact hc2
                next lctx rctx heqc =>
                  have h3 := ih (batch.take (batch.length / 2)) lctx cap2 idx2
                  split
                  next e cap3 idx3 heqL => rw [heqL] at h3; exact capLe_trans hc2 h3
                  next ls cap3 idx3 heqL =>
                    rw [heqL] at h3
                    have h4 := ih (batch.drop (batch.length / 2)) rctx cap3 idx3
                    split
                    next e cap4 idx4 heqR =>
                      rw [heqR] at h4
                      exact capLe_trans hc2 (capLe_trans h3 h4)
                    next rs cap4 idx4 heqR =>
                      rw [heqR] at h4
                      exact capLe_trans hc2 (capLe_trans h3 h4)

/-- C6: the capability state starts at \x7bresponse-format = json-object,
reasoning = supported\x7d; under the rank order json-object (0) → json-schema
(1) → none (2) and supported (0) → unsupported (1), each downgrade helper
lands on its chain target while leaving the other capability untouched, and
across every whole scoring attempt loop and every resilient call (retries,
capability downgrades, repair and bisection included) both ranks never
decrease: transitions are one-directional and never re-widen. -/
theorem c6_capability_monotone :
    capStateInit = { responseFormatMode := ResponseFormatMode.jsonObject,
                     reasoningControlsSupported := true } ∧
    (formatRank ResponseFormatMode.jsonObject = 0 ∧
      formatRank ResponseFormatMode.jsonSchema = 1 ∧
      formatRank ResponseFormatMode.noneMode = 2 ∧
      reasoningRank true = 0 ∧ reasoningRank false = 1) ∧
    (∀ c : CapState,
        (markResponseFormatJsonSchema c).responseFormatMode =
            ResponseFormatMode.jsonSchema ∧
          (markResponseFormatJsonSchema c).reasoningControlsSupported =
            c.reasoningControlsSupported ∧
          (markResponseFormatDisabled c).responseFormatMode =
            ResponseFormatMode.noneMode ∧
          (markResponseFormatDisabled c).reasoningControlsSupported =
            c.reasoningControlsSupported ∧
          (markReasoningControlsUnsupported c).responseFormatMode =
            c.responseFormatMode ∧
          (markReasoningControlsUnsupported c).reasoningControlsSupported = false) ∧
    (∀ (env : ℕ → AttemptOutcome) (batch : List BaseWordRow) (ctx : ClientContext)
        (cap : CapState) (idx : ℕ),
        capLe cap (tryScoreBatch env batch ctx cap idx).2.1) ∧
    (∀ (env : ℕ → AttemptOutcome) (batch : List BaseWordRow) (ctx : ClientContext)
        (cap : CapState),
        capLe cap (scoreBatchResilient env batch ctx cap).2.1) :=
  ⟨rfl,
   ⟨rfl, rfl, rfl, rfl, rfl⟩,
   fun c =>
     ⟨(markResponseFormatJsonSchema_spec c).1, (markResponseFormatJsonSchema_spec c).2,
      (markResponseFormatDisabled_spec c).1, (markResponseFormatDisabled_spec c).2,
      (markReasoningControlsUnsupported_spec c).1,
      (markReasoningControlsUnsupported_spec c).2⟩,
   tryScoreBatch_capLe,
   fun env batch ctx cap => scoreBatchResilientGo_capLe env maxRecursionDepth batch ctx cap 0⟩

/-- Whether the environment outcome of one HTTP attempt is a raised
connectivity/timeout failure. -/
def isConnRaised (o : AttemptOutcome) : Bool :=
  match o with
  | .raised e => e.connectivity
  | .parsed _ _ => false

/-- The attempt loop reports `connectivity_failure` only when the
`saw_only_connectivity_failures` flag came in true and every outcome it
consumed was a raised connectivity failure. -/
theorem tryScoreBatchGo_connFailure (env : ℕ → AttemptOutcome) (batch : List BaseWordRow) :
    ∀ (retries idx : ℕ) (mode : ResponseFormatMode) (reasoning : Bool) (cap : CapState)
      (sawOnly : Bool) (lastErr : Option LmError),
      (tryScoreBatchGo env batch retries idx mode reasoning cap sawOnly
          lastErr).1.connectivityFailure = true →
      sawOnly = true ∧ ∀ k, k < retries → isConnRaised (env (idx + k)) = true := by
  intro retries
  induction retries with
  | zero =>
      intro idx mode reasoning cap sawOnly lastErr h
      exact ⟨h, fun k hk => absurd hk (Nat.not_lt_zero k)⟩
  | succ r ih =>
      intro idx mode reasoning cap sawOnly lastErr h
      unfold tryScoreBatchGo at h
      rcases henv : env idx with ⟨scores, unresolved⟩ | e <;> rw [henv] at h <;>
        dsimp only at h
      · exact absurd h (by simp)
      · obtain ⟨hsaw, hall⟩ := ih (idx + 1) _ _ _ _ _ h
        rw [Bool.and_eq_true] at hsaw
        refine ⟨hsaw.1, fun k hk => ?_⟩
        rcases k with _ | k
        · rw [Nat.add_zero, henv]
          exact hsaw.2
        · rw [show idx + (k + 1) = idx + 1 + k by omega]
          exact hall k (by omega)

/-- The `connectivity_failure` flag of one whole `_try_score_batch` call
certifies that all `ctx.max_retries` consecutive attempts starting at the
incoming counter were raised connectivity failures. -/
theorem tryScoreBatch_connFailure (env : ℕ → AttemptOutcome) (batch : List BaseWordRow)
    (ctx : ClientContext) (cap : CapState) (idx : ℕ)
    (h : (tryScoreBatch env batch ctx cap idx).1.connectivityFailure = true) :
    ∀ k, k < ctx.maxRetries → isConnRaised (env (idx + k)) = true := by
  unfold tryScoreBatch at h
  exact (tryScoreBatchGo_connFailure env batch ctx.maxRetries idx _ _ cap true none h).2

/-- Well-formedness `run.py` guarantees whenever it builds a selection-mode
`ScoringContext`: the expected item count and the forced level are provided. -/
def wfClientContext (ctx : ClientContext) : Prop :=
  ctx.outputMode = OutputMode.selectedWordIds →
    ctx.expectedJsonItems ≠ none ∧ ctx.forcedRarityLevel ≠ none

/-- On a well-formed context the resilient scorer errors only with the
connectivity exception, and only when some full window of `ctx.max_retries`
consecutive attempts consisted purely of raised connectivity failures. -/
theorem scoreBatchResilientGo_error_connectivity (env : ℕ → AttemptOutcome) :
    ∀ (fuel : ℕ) (batch : List BaseWordRow) (ctx : ClientContext) (cap : CapState) (idx : ℕ),
      wfClientContext ctx →
      ∀ (e : ScoreFatal) (cap2 : CapState) (idx2 : ℕ),
        scoreBatchResilientGo env fuel batch ctx cap idx = (.error e, cap2, idx2) →
        e = ScoreFatal.connectivity ∧
          ∃ i, ∀ k, k < ctx.maxRetries → isConnRaised (env (i + k)) = true := by
  intro fuel
  induction fuel with
  | zero =>
      intro batch ctx cap idx hwf e cap2 idx2 h
      simp [scoreBatchResilientGo] at h
  | succ f ih =>
      intro batch ctx cap idx hwf e cap2 idx2 h
      unfold scoreBatchResilientGo at h
      dsimp only at h
      split at h
      next r heq =>
        injection h with h1 h23
        rw [h1] at heq
        split_ifs at heq with hsel
        · rcases hE : ctx.expectedJsonItems with _ | te
          · exact absurd hE ((hwf hsel).1)
          · rcases hF : ctx.forcedRarityLevel with _ | forced
            · exact absurd hF ((hwf hsel).2)
            · rw [hE, hF] at heq
              dsimp only at heq
              split_ifs at heq <;> injection heq with heq2 <;> exact Except.noConfusion heq2
      next heqpre =>
        by_cases hconn :
            (tryScoreBatch env batch ctx cap idx).1.connectivityFailure = true
        · rw [if_pos hconn] at h
          injection h with h1 h23
          injection h1 with h1
          exact ⟨h1.symm, idx, tryScoreBatch_connFailure env batch ctx cap idx hconn⟩
        · rw [if_neg hconn] at h
          by_cases hscores : (tryScoreBatch env batch ctx cap idx).1.scores ≠ []
          · rw [if_pos hscores] at h
            by_cases hpart : ctx.allowPartialResults = true
            · rw [if_pos hpart] at h
              exact absurd h (by simp)
            · rw [if_neg hpart] at h
              by_cases hunres : (tryScoreBatch env batch ctx cap idx).1.unresolved = []
              · rw [if_pos hunres] at h
                exact absurd h (by simp)
              · rw [if_neg hunres] at h
                split at h
                next more cap3 idx3 heq => exact absurd h (by simp)
                next e3 cap3 idx3 heq =>
                  injection h with h1 h23
                  injection h1 with h1
                  obtain ⟨he3, hwin⟩ := ih _ ctx _ _ hwf e3 cap3 idx3 heq
                  exact ⟨h1 ▸ he3, hwin⟩
          · rw [if_neg hscores] at h
            split at h
            next rscores cap3 idx3 heq => exact absurd h (by simp)
            next cap3 idx3 heq =>
              by_cases hsingle : batch.length = 1
              · rw [if_pos hsingle] at h
                exact absurd h (by simp)
              · rw [if_neg hsingle] at h
                split at h
                next e4 heqc =>
                  split_ifs at heqc with hsel
                  · rcases hE : ctx.expectedJsonItems with _ | te
                    · exact absurd hE ((hwf hsel).1)
                    · rw [hE] at heqc
                      exact Except.noConfusion heqc
                next lctx rctx heqc =>
                  have hsub : lctx.maxRetries = ctx.maxRetries ∧
                      rctx.maxRetries = ctx.maxRetries ∧
                      wfClientContext lctx ∧ wfClientContext rctx := by
                    split_ifs at heqc with hsel
                    · rcases hE : ctx.expectedJsonItems with _ | te
                      · exact absurd hE ((hwf hsel).1)
                      · rw [hE] at heqc
                        injection heqc with heqc
                        injection heqc with heql heqr
                        refine ⟨by rw [← heql], by rw [← heqr], ?_, ?_⟩
                        · intro hsel2
                          rw [← heql]
                          exact ⟨by simp, by simpa using (hwf hsel).2⟩
                        · intro hsel2
                          rw [← heqr]
                          exact ⟨by simp, by simpa using (hwf hsel).2⟩
                    · injection heqc with heqc
                      injection heqc with heql heqr
                      exact ⟨by rw [← heql], by rw [← heqr],
                        by rw [← heql]; exact hwf, by rw [← heqr]; exact hwf⟩
                  split at h
                  next e5 cap5 idx5 heqL =>
                    injection h with h1 h23
                    injection h1 with h1
                    obtain ⟨he5, hwin⟩ := ih _ lctx _ _ hsub.2.2.1 e5 cap5 idx5 heqL
                    rw [hsub.1] at hwin
                    exact ⟨h1 ▸ he5, hwin⟩
                  next ls cap5 idx5 heqL =>
                    split at h
                    next e6 cap6 idx6 heqR =>
                      injection h with h1 h23
                      injection h1 with h1
                      obtain ⟨he6, hwin⟩ := ih _ rctx _ _ hsub.2.2.2 e6 cap6 idx6 heqR
                      rw [hsub.2.1] at hwin
                      exact ⟨h1 ▸ he6, hwin⟩
                    next rs cap6 idx6 heqR => exact absurd h (by simp)

/-- A raised error that the client classifies as a connectivity failure
and nothing else. -/
def connErrC2 : LmError := ⟨true, false, false, false, false, false, false⟩

/-- A raised error matching none of the recognized categories (e.g.
malformed response content). -/
def otherErrC2 : LmError := ⟨false, false, false, false, false, false, false⟩

/-- An environment whose first HTTP attempt raises a non-connectivity
(malformed content) error and whose later attempts all raise connectivity
failures. -/
def envC2 : ℕ → AttemptOutcome :=
  fun i => if i = 0 then .raised otherErrC2 else .raised connErrC2

/-- An environment where every HTTP attempt raises a connectivity
failure. -/
def envAllConnC2 : ℕ → AttemptOutcome := fun _ => .raised connErrC2

/-- A two-word batch. -/
def batchC2 : List BaseWordRow := [⟨1, "a", "N"⟩, ⟨2, "b", "N"⟩]

/-- A score-results context with a single attempt per retry loop. -/
def ctxC2 : ClientContext :=
  ⟨1, false, none, .scoreResults, none, .openaiCompat, false⟩

/-- C2 counterexample: with one attempt per loop, a first attempt that
fails with a NON-connectivity (malformed content) error and later attempts
failing with connectivity errors, the resilient call still raises the
connectivity exception after consuming attempts 0 and 1 (final attempt
counter 2) — so it raises although not every request attempt of the call
failed purely from connectivity/timeout. -/
theorem c2_raise_without_all_connectivity :
    scoreBatchResilient envC2 batchC2 ctxC2 capStateInit =
        (Except.error ScoreFatal.connectivity, capStateInit, 2) ∧
      isConnRaised (envC2 0) = false ∧ isConnRaised (envC2 1) = true :=
  ⟨rfl, rfl, rfl⟩

/-- C2 (amended): on a well-formed context the resilient scorer raises only
the connectivity exception, and only when some full window of
`ctx.max_retries` consecutive HTTP attempts failed purely from
connectivity/timeout; conversely, when no attempt ever raises a
connectivity failure (and at least one attempt is made per loop), every
other failure is absorbed and the call returns a (possibly empty) result
list. -/
theorem c2_resilient_connectivity_only (env : ℕ → AttemptOutcome)
    (batch : List BaseWordRow) (ctx : ClientContext) (cap : CapState)
    (hwf : wfClientContext ctx) :
    (∀ (e : ScoreFatal) (cap2 : CapState) (idx2 : ℕ),
        scoreBatchResilient env batch ctx cap = (.error e, cap2, idx2) →
        e = ScoreFatal.connectivity ∧
          ∃ i, ∀ k, k < ctx.maxRetries → isConnRaised (env (i + k)) = true) ∧
    ((∀ i, isConnRaised (env i) = false) → 1 ≤ ctx.maxRetries →
      ∃ (scores : List ScoreResult) (cap2 : CapState) (idx2 : ℕ),
        scoreBatchResilient env batch ctx cap = (.ok scores, cap2, idx2)) := by
  constructor
  · intro e cap2 idx2 h
    exact scoreBatchResilientGo_error_connectivity env maxRecursionDepth batch ctx cap 0
      hwf e cap2 idx2 h
  · intro hnone hret
    rcases hres : scoreBatchResilient env batch ctx cap with ⟨r, cap2, idx2⟩
    rcases r with e | scores
    · obtain ⟨_, i, hwin⟩ := scoreBatchResilientGo_error_connectivity env
        maxRecursionDepth batch ctx cap 0 hwf e cap2 idx2 hres
      have hk := hwin 0 (by omega)
      rw [hnone (i + 0)] at hk
      exact absurd hk (by simp)
    · exact ⟨scores, cap2, idx2, rfl⟩

/-- C2 witness: the amended theorem applied to the all-connectivity
environment on the concrete two-word batch and score-results context. -/
theorem c2_resilient_connectivity_only_witness :
    (∀ (e : ScoreFatal) (cap2 : CapState) (idx2 : ℕ),
        scoreBatchResilient envAllConnC2 batchC2 ctxC2 capStateInit =
            (.error e, cap2, idx2) →
        e = ScoreFatal.connectivity ∧
          ∃ i, ∀ k, k < ctxC2.maxRetries →
            isConnRaised (envAllConnC2 (i + k)) = true) ∧
    ((∀ i, isConnRaised (envAllConnC2 i) = false) → 1 ≤ ctxC2.maxRetries →
      ∃ (scores : List ScoreResult) (cap2 : CapState) (idx2 : ℕ),
        scoreBatchResilient envAllConnC2 batchC2 ctxC2 capStateInit =
          (.ok scores, cap2, idx2)) :=
  c2_resilient_connectivity_only envAllConnC2 batchC2 ctxC2 capStateInit
    (fun hsel => absurd hsel (by decide))

end Classificator
